import Mathlib

/-!
# DEIVA scatter controller: a shallow embedding

Source: `src/app/components/scatter/scatter.controller.js`.

The embedding follows the controller function by function:

* JavaScript numbers are `JSNum` (NaN, the two infinities, and finite values, taken as
  rationals: the controller only converts, compares and defaults numbers).
* JavaScript values met in a row are `JSVal`; a row object is `Obj`, its own properties in
  enumeration order.
* `Number(string)` belongs to the JavaScript runtime, so every function that converts takes
  the string conversion as the parameter `parse`.
* `crossfilter` is a third-party library; `Crossfilter` below models the part the controller
  uses (two dimensions, `filterRange`, `top(Infinity)`) after the library's documented
  behaviour: `filterRange([lo, hi])` selects `lo <= value < hi`.
* `_.debounce` is the third-party lodash call; `Scheduler` below models its default
  trailing-edge behaviour over a clock in milliseconds.
-/

namespace Deiva

/-! ## JavaScript numbers -/

/-- A JavaScript number: NaN, minus infinity, a finite value, or plus infinity. -/
inductive JSNum where
  | nan : JSNum
  | ninf : JSNum
  | fin : ℚ → JSNum
  | pinf : JSNum
  deriving DecidableEq

namespace JSNum

/-- The relational operator `a < b` on numbers; false whenever an operand is NaN. -/
def lt : JSNum → JSNum → Bool
  | nan, _ => false
  | _, nan => false
  | ninf, ninf => false
  | ninf, _ => true
  | fin _, ninf => false
  | fin a, fin b => decide (a < b)
  | fin _, pinf => true
  | pinf, _ => false

/-- The relational operator `a <= b` on numbers; false whenever an operand is NaN. -/
def le : JSNum → JSNum → Bool
  | nan, _ => false
  | _, nan => false
  | ninf, _ => true
  | fin _, ninf => false
  | fin a, fin b => decide (a ≤ b)
  | fin _, pinf => true
  | pinf, pinf => true
  | pinf, _ => false

/-- The relational operator `a > b`. -/
def gt (a b : JSNum) : Bool := lt b a

/-- The relational operator `a >= b`. -/
def ge (a b : JSNum) : Bool := le b a

/-- The function `Math.abs`. -/
def abs : JSNum → JSNum
  | nan => nan
  | ninf => pinf
  | fin a => fin |a|
  | pinf => pinf

/-- Unary minus. -/
def neg : JSNum → JSNum
  | nan => nan
  | ninf => pinf
  | fin a => fin (-a)
  | pinf => ninf

/-- Truthiness of a number: every number but `0` and NaN. -/
def truthy : JSNum → Bool
  | nan => false
  | fin a => decide (a ≠ 0)
  | _ => true

/-- The operator `a || b` on two numbers. -/
def or (a b : JSNum) : JSNum := if a.truthy then a else b

/-- Whether the number is NaN. -/
def isNaN : JSNum → Bool
  | nan => true
  | _ => false

end JSNum

/-! ## JavaScript values and row objects -/

/-- The JavaScript values a row can hold: what a parsed table or JSON resource delivers, and
the array of strings that `processData` stores under `symbols`. -/
inductive JSVal where
  | undefined : JSVal
  | null : JSVal
  | bool : Bool → JSVal
  | num : JSNum → JSVal
  | str : String → JSVal
  | strs : List String → JSVal
  deriving DecidableEq

namespace JSVal

/-- The conversion `Number(v)`; `parse` is the runtime's string-to-number conversion. An
array converts through its `toString`, the elements joined by commas. -/
def toNumber (parse : String → JSNum) : JSVal → JSNum
  | undefined => JSNum.nan
  | null => JSNum.fin 0
  | bool b => JSNum.fin (if b then 1 else 0)
  | num n => n
  | str s => parse s
  | strs l => parse (",".intercalate l)

/-- Truthiness of a value. -/
def truthy : JSVal → Bool
  | undefined => false
  | null => false
  | bool b => b
  | num n => n.truthy
  | str s => decide (s ≠ "")
  | strs _ => true

/-- The operator `a || b`. -/
def or (a b : JSVal) : JSVal := if a.truthy then a else b

end JSVal

/-- A row object: its own properties, in enumeration order. -/
abbrev Obj := List (String × JSVal)

namespace Obj

/-- Property read `d.k`; an absent property reads as `undefined`. -/
def get (d : Obj) (k : String) : JSVal :=
  match d.find? (fun p => p.1 == k) with
  | some p => p.2
  | none => JSVal.undefined

/-- Property write `d.k = v`: an existing property keeps its place, a new one goes last. -/
def set : Obj → String → JSVal → Obj
  | [], k, v => [(k, v)]
  | p :: rest, k, v => if p.1 == k then (k, v) :: rest else p :: set rest k v

/-- The statement `delete d.k`. -/
def delete (d : Obj) (k : String) : Obj := d.filter (fun p => !(p.1 == k))

/-- The call `Object.keys(d)`. -/
def keys (d : Obj) : List String := d.map Prod.fst

end Obj

/-! ## The record normalizer (the `filter` callback of `processData`, lines 293-309) -/

/-- The constant `0.001`, the default base mean and the inclusion threshold. -/
def baseMeanFloor : JSNum := JSNum.fin (1 / 1000)

/-- The callback's body up to line 304: the four numeric fields are converted and defaulted
with `||`, and the alternative source columns are deleted. -/
def normalizeNumbers (parse : String → JSNum) (d : Obj) : Obj :=
  let d := d.set "pvalue" (JSVal.num
    (JSNum.or ((d.get "pvalue").toNumber parse) ((d.get "PValue").toNumber parse)))
  let d := d.delete "PValue"
  let d := d.set "padj" (JSVal.num
    (JSNum.or (JSNum.or ((d.get "padj").toNumber parse) ((d.get "FDR").toNumber parse))
      JSNum.nan))
  let d := d.delete "FDR"
  let d := d.set "baseMean" (JSVal.num
    (JSNum.or (JSNum.or ((d.get "baseMean").toNumber parse) ((d.get "logCPM").toNumber parse))
      baseMeanFloor))
  let d := d.delete "logCPM"
  let d := d.set "log2FoldChange" (JSVal.num
    (JSNum.or (JSNum.or ((d.get "log2FoldChange").toNumber parse)
      ((d.get "logFC").toNumber parse)) (JSNum.fin 0)))
  d.delete "logFC"

/-- The callback of `resource.data.filter` (lines 293-309). It returns the normalized row and
the callback's result (`true`: the row is kept), or `none` when line 306 throws a `TypeError`:
`d.symbol.split` exists only when `d.symbol` is a string. -/
def normalizeRow (parse : String → JSNum) (d : Obj) : Option (Obj × Bool) :=
  let d := normalizeNumbers parse d
  match d.get "symbol" with
  | JSVal.str s =>
    let d := d.set "symbols" (JSVal.strs (s.split (fun c => c == ';')))
    let d := d.set "symbol" (JSVal.or (d.get "symbol") (d.get "feature"))
    some (d, JSNum.gt ((d.get "baseMean").toNumber parse) baseMeanFloor)
  | _ => none

/-- The call `resource.data.filter(callback)`: rows are visited in order, the kept ones are
collected, and an exception of the callback ends the call (`none`). -/
def filterRows (parse : String → JSNum) : List Obj → Option (List Obj)
  | [] => some []
  | d :: rest =>
    match normalizeRow parse d with
    | none => none
    | some (d', keep) =>
      match filterRows parse rest with
      | none => none
      | some out => some (if keep then d' :: out else out)

/-! ## crossfilter, as far as the controller uses it -/

/-- A crossfilter over the loaded records with its two dimensions, `d => d.baseMean` and
`d => d.log2FoldChange`, each carrying the range last given to `filterRange`. The fields
`dataState.byBaseMean` and `dataState.byLog2FoldChange` are the two dimensions of one such
object. -/
structure Crossfilter where
  records : List Obj
  baseMeanRange : JSNum × JSNum
  log2FoldChangeRange : JSNum × JSNum
  deriving DecidableEq

/-- The value of the dimension `d => d.baseMean` at a record, as the library compares it
with the numeric range ends. -/
def baseMeanOf (parse : String → JSNum) (d : Obj) : JSNum := (d.get "baseMean").toNumber parse

/-- The value of the dimension `d => d.log2FoldChange` at a record. -/
def log2FoldChangeOf (parse : String → JSNum) (d : Obj) : JSNum :=
  (d.get "log2FoldChange").toNumber parse

/-- The library's `filterRange([lo, hi])` test: both ends are located with `bisect.left`, so a
value is selected when it is not below `lo` and is below `hi`. -/
def inRange (r : JSNum × JSNum) (v : JSNum) : Bool := !(JSNum.lt v r.1) && JSNum.lt v r.2

namespace Crossfilter

/-- A record passes when it passes the filter of every dimension. -/
def passes (parse : String → JSNum) (cf : Crossfilter) (d : Obj) : Bool :=
  inRange cf.baseMeanRange (baseMeanOf parse d) &&
    inRange cf.log2FoldChangeRange (log2FoldChangeOf parse d)

/-- The call `byBaseMean.filterRange(r)`. -/
def filterBaseMean (cf : Crossfilter) (r : JSNum × JSNum) : Crossfilter :=
  { cf with baseMeanRange := r }

/-- The call `byLog2FoldChange.filterRange(r)`. -/
def filterLog2FoldChange (cf : Crossfilter) (r : JSNum × JSNum) : Crossfilter :=
  { cf with log2FoldChangeRange := r }

/-- The call `byBaseMean.top(Infinity)`: every passing record, by descending base mean. The
library walks its ascending index, which keeps tied records in input order, from the top
down, so tied records come out in reverse input order. -/
def topByBaseMean (parse : String → JSNum) (cf : Crossfilter) : List Obj :=
  ((cf.records.filter (cf.passes parse)).insertionSort
    (fun a b => JSNum.le (baseMeanOf parse a) (baseMeanOf parse b) = true)).reverse

/-- The call `byLog2FoldChange.top(Infinity)`: every passing record, by descending fold
change, tied records in reverse input order. -/
def topByLog2FoldChange (parse : String → JSNum) (cf : Crossfilter) : List Obj :=
  ((cf.records.filter (cf.passes parse)).insertionSort
    (fun a b => JSNum.le (log2FoldChangeOf parse a) (log2FoldChangeOf parse b) = true)).reverse

end Crossfilter

/-! ## The gene index -/

/-- An entry of `uniqGeneMap`: the object `{symbol, count}` of lines 367-370. -/
structure GeneEntry where
  symbol : String
  count : Nat
  deriving DecidableEq

/-- What `uniqGeneMap[symbol]` can deliver when truthy: an entry of the map, or a member that
the plain object `{}` inherits from `Object.prototype` under that name. -/
inductive GeneItem where
  | entry : GeneEntry → GeneItem
  | builtin : String → GeneItem
  deriving DecidableEq

/-- The UTF-16 code units of a character. -/
def utf16OfChar (c : Char) : List Nat :=
  if c.toNat < 65536 then [c.toNat]
  else [55296 + (c.toNat - 65536) / 1024, 56320 + (c.toNat - 65536) % 1024]

/-- The UTF-16 code units of a string. -/
def utf16Units (s : String) : List Nat := s.toList.flatMap utf16OfChar

/-- The order of the default `Array.prototype.sort` on strings: by UTF-16 code units. -/
def jsStringLe (a b : String) : Prop := utf16Units a ≤ utf16Units b

instance : DecidableRel jsStringLe := fun a b => inferInstanceAs (Decidable (utf16Units a ≤ utf16Units b))

/-- The `symbols` array of a normalized record. -/
def symbolsOf (d : Obj) : List String :=
  match d.get "symbols" with
  | JSVal.strs l => l
  | _ => []

/-- Lines 346-356: every symbol of every kept record, then sorted. -/
def fullGeneList (data : List Obj) : List String :=
  (data.flatMap symbolsOf).insertionSort jsStringLe

/-- One round of the loop of lines 362-373. `uniqGeneMap[symbol]` finds an own entry, whose
count is incremented, or a truthy member inherited from `Object.prototype` (`inherited`; the
increment then lands on that built-in object and nothing is added), or nothing, and a fresh
entry is stored and pushed. The map and `uniqGeneList` hold the same objects in the same
order, so one list stands for both. -/
def countSymbol (inherited : String → Bool) (m : List GeneEntry) (symbol : String) :
    List GeneEntry :=
  if m.any (fun e => e.symbol == symbol) then
    m.map (fun e => if e.symbol == symbol then { e with count := e.count + 1 } else e)
  else if inherited symbol then m
  else m ++ [{ symbol := symbol, count := 1 }]

/-- Lines 360-373: the loop over the sorted symbol list. -/
def buildGeneIndex (inherited : String → Bool) (full : List String) : List GeneEntry :=
  full.foldl (countSymbol inherited) []

/-- The read `main.uniqGeneMap[symbol]`, as a truthy item or nothing. -/
def lookupGene (inherited : String → Bool) (m : List GeneEntry) (symbol : String) :
    Option GeneItem :=
  match m.find? (fun e => e.symbol == symbol) with
  | some e => some (GeneItem.entry e)
  | none => if inherited symbol then some (GeneItem.builtin symbol) else none

/-- The characters matched by the class `\s` of a regular expression. -/
def isRegexSpace (c : Char) : Bool :=
  c.toNat ∈ [9, 10, 11, 12, 13, 32, 160, 5760, 8232, 8233, 8239, 8287, 12288, 65279] ||
    (8192 ≤ c.toNat && c.toNat ≤ 8202)

/-- The call `list.split(/[\s;]/)`. -/
def splitSymbols (list : String) : List String :=
  list.split (fun c => isRegexSpace c || c == ';')

/-- The body of the `forEach` of `addSymbols` (lines 384-387), over any kind of item;
equality of items stands for object identity, as `includes` tests it. -/
def addSymbol {ε : Type} [DecidableEq ε] (lookup : String → Option ε) (geneList : List ε)
    (symbol : String) : List ε :=
  match lookup symbol with
  | some item => if geneList.contains item then geneList else geneList ++ [item]
  | none => geneList

/-- The function `addSymbols` (lines 382-389) over any gene index `lookup`. -/
def addSymbolsWith {ε : Type} [DecidableEq ε] (lookup : String → Option ε) (geneList : List ε)
    (list : String) : List ε :=
  (splitSymbols list).foldl (addSymbol lookup) geneList

/-! ## The controller -/

/-- A column definition of the grid, by its name and visibility; the display attributes of
the six fixed columns (line 35-42) are read by the grid widget only. -/
structure ColumnDef where
  name : String
  visible : Bool
  deriving DecidableEq

/-- The constant `columnDefs` (lines 35-42). -/
def columnDefs : List ColumnDef :=
  [⟨"feature", true⟩, ⟨"symbol", true⟩, ⟨"baseMean", true⟩, ⟨"log2FoldChange", true⟩,
    ⟨"pvalue", true⟩, ⟨"padj", true⟩]

/-- The constant `ignoredKeys` (lines 311-319). -/
def ignoredKeys : List String :=
  ["pvalue", "padj", "baseMean", "log2FoldChange", "symbols", "symbol", "feature"]

/-- The controller state that `processData`, `addSymbols`, `updateList` and `setup` read and
write. `none` is a field not yet assigned. `cf` holds `dataState.byBaseMean` and
`dataState.byLog2FoldChange`; `errors` collects the messages given to `growl.error`. -/
structure Ctrl where
  cf : Option Crossfilter
  data : Option (List Obj)
  gridData : Option (List Obj)
  gridColumnDefs : List ColumnDef
  uniqGeneMap : Option (List GeneEntry)
  uniqGeneList : Option (List GeneEntry)
  geneList : List GeneItem
  gene : String
  upDown : Nat × Nat
  errors : List String
  deriving DecidableEq

/-- How a call of `processData` ends: normally after committing the new dataset, normally
after reporting that no feature was found, or with an uncaught `TypeError`. -/
inductive Outcome where
  | loaded : Outcome
  | noFeatures : Outcome
  | typeError : Outcome
  deriving DecidableEq

/-- The function `addSymbols` (lines 382-389) on the controller; `none` is the `TypeError` of
reading a property of an unassigned `main.uniqGeneMap`. -/
def addSymbols (inherited : String → Bool) (list : String) (c : Ctrl) : Option Ctrl :=
  match c.uniqGeneMap with
  | none => none
  | some m => some { c with geneList := addSymbolsWith (lookupGene inherited m) c.geneList list }

/-- The default range of the base-mean dimension, `[0.01, Infinity]`. -/
def defaultBaseMeanRange : JSNum × JSNum := (JSNum.fin (1 / 100), JSNum.pinf)

/-- The default range of the fold-change dimension, `[-Infinity, Infinity]`. -/
def defaultLog2FoldChangeRange : JSNum × JSNum := (JSNum.ninf, JSNum.pinf)

/-- The function `processData` (lines 290-380) on the rows `resource.data` of the resource
named `name`. The rows are fresh objects of the reloaded resource. -/
def processData (parse : String → JSNum) (inherited : String → Bool) (name : String)
    (rows : List Obj) (c : Ctrl) : Outcome × Ctrl :=
  match filterRows parse rows with
  | none => (Outcome.typeError, c)
  | some data =>
    if data.length < 1 then
      (Outcome.noFeatures,
        { c with errors := c.errors ++ ["Failed to find any features in " ++ name] })
    else
      let cf : Crossfilter :=
        { records := data, baseMeanRange := defaultBaseMeanRange,
          log2FoldChangeRange := defaultLog2FoldChangeRange }
      let top := cf.topByBaseMean parse
      let c := { c with cf := some cf, data := some top, gridData := some top,
                        gridColumnDefs := columnDefs }
      match top with
      | [] => (Outcome.typeError, c)
      | first :: _ =>
        let extra := (first.keys.filter (fun key => !(ignoredKeys.contains key))).map
          (fun key => ColumnDef.mk key false)
        let index := buildGeneIndex inherited (fullGeneList data)
        let c := { c with gridColumnDefs := columnDefs ++ extra, uniqGeneMap := some index,
                          uniqGeneList := some index, geneList := [] }
        (Outcome.loaded,
          { c with geneList := addSymbolsWith (lookupGene inherited index) [] c.gene })

/-- The function `updateList` (lines 215-230); `brush` is `none` for an empty brush and the
extent `[[x0, y0], [x1, y1]]` otherwise. `none` is the `TypeError` of calling it before any
dataset was loaded. -/
def updateList (parse : String → JSNum) (brush : Option ((JSNum × JSNum) × (JSNum × JSNum)))
    (c : Ctrl) : Option Ctrl :=
  match c.cf with
  | none => none
  | some cf =>
    match brush with
    | none =>
      let cf := (cf.filterBaseMean defaultBaseMeanRange).filterLog2FoldChange
        defaultLog2FoldChangeRange
      some { c with cf := some cf, gridData := some (cf.topByLog2FoldChange parse) }
    | some extent =>
      let cf := (cf.filterBaseMean (extent.1.1, extent.2.1)).filterLog2FoldChange
        (extent.1.2, extent.2.2)
      some { c with cf := some cf, gridData := some (cf.topByLog2FoldChange parse) }

/-- The call `genesSearch.indexOf(x)` for a string `x`, by strict equality; an element of
`genesSearch` is the `symbol` of a searched item, `undefined` when the item has none. -/
def indexOf (genesSearch : List JSVal) (x : String) : Int :=
  match genesSearch.indexOf? (JSVal.str x) with
  | some j => (j : Int)
  | none => -1

/-- The closure `geneCheck` of `setup` (lines 238-246), on the `symbols` of a record. -/
def geneCheck (genesSearch : List JSVal) : List String → Int
  | [] => -1
  | s :: rest =>
    let j := indexOf genesSearch s
    if j > -1 then j else geneCheck genesSearch rest

/-- The array `genesSearch` of `setup` (line 236). -/
def genesSearchOf (geneList : List GeneItem) : List JSVal :=
  geneList.map (fun x => match x with
    | GeneItem.entry e => JSVal.str e.symbol
    | GeneItem.builtin _ => JSVal.undefined)

/-- The closure `cutoffCheck` of `setup` (line 248). -/
def cutoffCheck (parse : String → JSNum) (pcut fccut : JSNum) (d : Obj) : Bool :=
  JSNum.le ((d.get "padj").toNumber parse) pcut &&
    JSNum.gt (JSNum.abs (log2FoldChangeOf parse d)) fccut

/-- The part of `setup` (lines 232-253) that writes controller state: `upDown`. `pow10` is
`x => Math.pow(10, x)`, `logpcut` and `fccut` the slider values; `none` is the `TypeError` of
calling it before `dataState.data` was assigned. -/
def setup (parse : String → JSNum) (pow10 : JSNum → JSNum) (logpcut fccut : JSNum) (c : Ctrl) :
    Option Ctrl :=
  match c.data with
  | none => none
  | some data =>
    let pcut := pow10 logpcut
    let d := data.filter (cutoffCheck parse pcut fccut)
    let up := (d.filter (fun d => JSNum.gt (log2FoldChangeOf parse d) (JSNum.fin 0))).length
    some { c with upDown := (up, d.length - up) }

/-! ## Names for the values the normalizer assigns -/

/-- The value that line 300 assigns to `d.baseMean`. -/
def assignedBaseMean (parse : String → JSNum) (d : Obj) : JSNum :=
  JSNum.or (JSNum.or ((d.get "baseMean").toNumber parse) ((d.get "logCPM").toNumber parse))
    baseMeanFloor

/-- The value that line 297 assigns to `d.padj`. -/
def assignedPadj (parse : String → JSNum) (d : Obj) : JSNum :=
  JSNum.or (JSNum.or ((d.get "padj").toNumber parse) ((d.get "FDR").toNumber parse)) JSNum.nan

/-- The value that line 303 assigns to `d.log2FoldChange`. -/
def assignedLog2FoldChange (parse : String → JSNum) (d : Obj) : JSNum :=
  JSNum.or (JSNum.or ((d.get "log2FoldChange").toNumber parse) ((d.get "logFC").toNumber parse))
    (JSNum.fin 0)

/-- The row that the callback leaves behind when `d.symbol` is the string `s`. -/
def normalizedWith (parse : String → JSNum) (d : Obj) (s : String) : Obj :=
  ((normalizeNumbers parse d).set "symbols" (JSVal.strs (s.split (fun c => c == ';')))).set
    "symbol" (JSVal.or (JSVal.str s) (d.get "feature"))


/-! ## The specification's reading of the fallback chains

The specification words the defaults as "first numeric of (a, b), else c". The definitions
below follow those words, to be compared with what lines 297 and 300 assign. -/

/-- The specification's "first numeric of (`a`, `b`), else `c`" on the two converted fields:
the first that is a number, that is, not NaN. -/
def specFirstNumeric (a b c : JSNum) : JSNum :=
  if !a.isNaN then a else if !b.isNaN then b else c

/-- The specification's `padj`: "first numeric of (`padj`, `FDR`), else NaN". -/
def specPadj (parse : String → JSNum) (d : Obj) : JSNum :=
  specFirstNumeric ((d.get "padj").toNumber parse) ((d.get "FDR").toNumber parse) JSNum.nan

/-- The specification's `baseMean`: "first numeric of (`baseMean`, `logCPM`), else `0.001`". -/
def specBaseMean (parse : String → JSNum) (d : Obj) : JSNum :=
  specFirstNumeric ((d.get "baseMean").toNumber parse) ((d.get "logCPM").toNumber parse)
    baseMeanFloor

/-! ## Concrete runtime data for the worked examples -/

/-- The runtime's `Number` on the strings that the worked examples use; the general results
take the conversion as a parameter. -/
def exampleParse : String → JSNum
  | "0" => JSNum.fin 0
  | "2" => JSNum.fin 2
  | "5" => JSNum.fin 5
  | "10" => JSNum.fin 10
  | "0.01" => JSNum.fin (1 / 100)
  | _ => JSNum.nan

/-- The property names that a plain object inherits from `Object.prototype`. -/
def objectPrototypeNames : List String :=
  ["constructor", "hasOwnProperty", "isPrototypeOf", "propertyIsEnumerable", "toLocaleString",
    "toString", "valueOf", "__defineGetter__", "__defineSetter__", "__lookupGetter__",
    "__lookupSetter__", "__proto__"]

/-- Whether `{}[name]` is an inherited (truthy) member. -/
def inheritedName (name : String) : Bool := objectPrototypeNames.contains name

/-- The controller state right after construction (lines 132-201) with `main.gene = gene`. -/
def initialCtrl (gene : String) : Ctrl :=
  { cf := none, data := none, gridData := none, gridColumnDefs := columnDefs,
    uniqGeneMap := none, uniqGeneList := none, geneList := [], gene := gene, upDown := (0, 0),
    errors := [] }

/-- A raw row with a numeric `padj` of `0` and no `FDR` column. -/
def rowPadjZero : Obj :=
  [("feature", JSVal.str "ENSG1"), ("symbol", JSVal.str "TP53"), ("baseMean", JSVal.num (JSNum.fin 5)),
    ("log2FoldChange", JSVal.num (JSNum.fin 2)), ("padj", JSVal.num (JSNum.fin 0))]

/-- A raw row without a `symbol` column. -/
def rowNoSymbol : Obj :=
  [("feature", JSVal.str "ENSG1"), ("baseMean", JSVal.str "5"), ("log2FoldChange", JSVal.str "2"),
    ("padj", JSVal.str "0.01")]

/-- A raw row without a `symbol` column and with a base mean of `0`. -/
def rowNoSymbolUnexpressed : Obj :=
  [("feature", JSVal.str "ENSG2"), ("baseMean", JSVal.num (JSNum.fin 0))]

/-- The crossfilter that a successful `processData` builds over the kept records (lines
327-333). -/
def loadedCrossfilter (data : List Obj) : Crossfilter :=
  { records := data, baseMeanRange := defaultBaseMeanRange,
    log2FoldChangeRange := defaultLog2FoldChangeRange }

/-- A raw row with a base mean of `0` and a `logCPM` of `5`. -/
def rowZeroBaseMean : Obj :=
  [("feature", JSVal.str "ENSG3"), ("symbol", JSVal.str "MYC"), ("baseMean", JSVal.num (JSNum.fin 0)),
    ("logCPM", JSVal.num (JSNum.fin 5))]

/-- The row of the specification's normalization scenario. -/
def rowScenario : Obj :=
  [("symbol", JSVal.str "TP53;BRCA1"), ("baseMean", JSVal.str "5"),
    ("log2FoldChange", JSVal.str "2"), ("padj", JSVal.str "0.01")]

/-! ## Counting notions for the gene index -/

/-- The count stored for `symbol` among the entries of the map, `0` when it has none. -/
def countIn (m : List GeneEntry) (symbol : String) : Nat :=
  match m.find? (fun e => e.symbol == symbol) with
  | some e => e.count
  | none => 0

/-- How many times `symbol` is listed in the `symbols` arrays of the records, a record that
lists it twice counting twice. -/
def occurrences (data : List Obj) (symbol : String) : Nat :=
  (data.map (fun r => (symbolsOf r).count symbol)).sum

/-- How many records list `symbol` in their `symbols` array, the specification's count. -/
def recordsListing (data : List Obj) (symbol : String) : Nat :=
  data.countP (fun r => (symbolsOf r).contains symbol)

/-- A raw row whose symbol field names the same symbol twice. -/
def rowRepeatedSymbol : Obj :=
  [("feature", JSVal.str "ENSG4"), ("symbol", JSVal.str "A;A"), ("baseMean", JSVal.num (JSNum.fin 5))]

/-- The value of `d.padj` at a record, as `cutoffCheck` compares it. -/
def padjOf (parse : String → JSNum) (d : Obj) : JSNum := (d.get "padj").toNumber parse

/-- A loaded record that is significant and up-regulated. -/
def recordUp : Obj :=
  [("padj", JSVal.num (JSNum.fin (1 / 100))), ("log2FoldChange", JSVal.num (JSNum.fin 2))]

/-- A loaded record without an adjusted p-value. -/
def recordNoPadj : Obj :=
  [("padj", JSVal.num JSNum.nan), ("log2FoldChange", JSVal.num (JSNum.fin (-3)))]

/-- The function `x => Math.pow(10, x)` on the slider positions of the examples. -/
def examplePow10 : JSNum → JSNum
  | JSNum.fin q => if q = -1 then JSNum.fin (1 / 10) else if q = 0 then JSNum.fin 1 else JSNum.nan
  | _ => JSNum.nan

/-- A controller state whose `dataState.data` holds `recordUp` and `recordNoPadj`. -/
def exampleLoadedCtrl : Ctrl :=
  { initialCtrl "" with data := some [recordUp, recordNoPadj] }

/-- A raw row whose base mean lies on the right edge of the brush `[[0, -2], [10, 2]]`. -/
def rowOnEdge : Obj :=
  [("feature", JSVal.str "ENSG5"), ("symbol", JSVal.str "EGFR"), ("baseMean", JSVal.num (JSNum.fin 10)),
    ("log2FoldChange", JSVal.num (JSNum.fin 0))]

/-- The brush rectangle `[[0, -2], [10, 2]]` of the specification's scenario. -/
def brushScenario : (JSNum × JSNum) × (JSNum × JSNum) :=
  ((JSNum.fin 0, JSNum.fin (-2)), (JSNum.fin 10, JSNum.fin 2))

/-- The state after loading the scenario row and brushing over `brushScenario`: a loaded
dataset whose dimensions carry ranges other than the defaults. -/
def exampleBrushedCtrl : Ctrl :=
  match updateList exampleParse (some brushScenario)
      (processData exampleParse inheritedName "res" [rowScenario] (initialCtrl "")).2 with
  | some c => c
  | none => initialCtrl ""

/-! ## The render scheduler (lines 116-130 and 264-288)

`_.debounce(f, 100)` is the third-party lodash call with its default options: `f` runs on the
trailing edge, once the quiet interval has passed since the last call of the wrapper. Time is
counted in milliseconds and a timer runs at the instant it falls due. -/

/-- The two debounced actions: the body of `_draw` and the body of `_update`. -/
inductive Action where
  | redraw : Action
  | updatePoints : Action
  deriving DecidableEq

/-- The quiet interval given to `_.debounce`. -/
def quietInterval : Nat := 100

/-- The render side of the controller at an instant: the class `dirty` of `$chart`, the chart
parameters last set by `setup()` (of any type `P`), the instant at which the pending call of
`_draw` and of `_update` falls due (`none`: nothing pending), and the actions executed so far,
each with its instant and the chart parameters it ran with. -/
structure Scheduler (P : Type) where
  dirty : Bool
  params : P
  drawDue : Option Nat
  updateDue : Option Nat
  executed : List (Action × Nat × P)

/-- The body of `_draw` (lines 117-122), run at the instant `t`. -/
def runDraw {P : Type} (t : Nat) (s : Scheduler P) : Scheduler P :=
  { s with dirty := false, drawDue := none,
           executed := s.executed ++ [(Action.redraw, t, s.params)] }

/-- The body of `_update` (lines 126-129), run at the instant `t`. -/
def runUpdate {P : Type} (t : Nat) (s : Scheduler P) : Scheduler P :=
  { s with dirty := false, updateDue := none,
           executed := s.executed ++ [(Action.updatePoints, t, s.params)] }

/-- The timer of `_draw`, seen at the instant `now`: it runs the body if it has fallen due. -/
def fireDraw {P : Type} (now : Nat) (s : Scheduler P) : Scheduler P :=
  match s.drawDue with
  | some due => if due ≤ now then runDraw due s else s
  | none => s

/-- The timer of `_update`, seen at the instant `now`. -/
def fireUpdate {P : Type} (now : Nat) (s : Scheduler P) : Scheduler P :=
  match s.updateDue with
  | some due => if due ≤ now then runUpdate due s else s
  | none => s

/-- Letting time pass up to the instant `now`: the timers that have fallen due run, the one
due earlier first. -/
def advance {P : Type} (now : Nat) (s : Scheduler P) : Scheduler P :=
  match s.drawDue, s.updateDue with
  | some d, some u =>
    if d ≤ u then fireUpdate now (fireDraw now s) else fireDraw now (fireUpdate now s)
  | _, _ => fireUpdate now (fireDraw now s)

/-- The function `update` (lines 264-269) called at the instant `now`, `setup()` setting the
chart parameters `p`: the flag is raised, the parameters are set, and the call of `_update`
makes its body due one quiet interval later, replacing a pending due instant. -/
def update {P : Type} (now : Nat) (p : P) (s : Scheduler P) : Scheduler P :=
  { advance now s with dirty := true, params := p, updateDue := some (now + quietInterval) }

/-- The function `draw` (lines 281-288) called at the instant `now`, `setup()` setting the
chart parameters `p`. -/
def draw {P : Type} (now : Nat) (p : P) (s : Scheduler P) : Scheduler P :=
  { advance now s with dirty := true, params := p, drawDue := some (now + quietInterval) }

/-- The trigger of an action: `draw` for the full redraw, `update` for `chart.updatePoints`. -/
def trigger {P : Type} : Action → Nat → P → Scheduler P → Scheduler P
  | Action.redraw => draw
  | Action.updatePoints => update

/-- A sequence of calls of one trigger, each with its instant and the parameters its `setup()`
sets. -/
def burst {P : Type} (a : Action) (calls : List (Nat × P)) (s : Scheduler P) : Scheduler P :=
  calls.foldl (fun s call => trigger a call.1 call.2 s) s

/-- The due instant of the pending call of an action. -/
def Scheduler.due {P : Type} (s : Scheduler P) : Action → Option Nat
  | Action.redraw => s.drawDue
  | Action.updatePoints => s.updateDue

/-- A scheduler with nothing pending, a clean chart and nothing executed yet. -/
def idleScheduler : Scheduler String :=
  { dirty := false, params := "initial", drawDue := none, updateDue := none, executed := [] }
/-! ## Row objects: reads after writes -/

theorem Obj.get_set_self (d : Obj) (k : String) (v : JSVal) : (d.set k v).get k = v := by
  induction d with
  | nil => simp [Obj.set, Obj.get]
  | cons p rest ih =>
    by_cases h : p.1 = k
    · simp [Obj.set, Obj.get, h]
    · simp only [Obj.set, beq_iff_eq, h, if_false]
      simpa [Obj.get, h] using ih

theorem Obj.get_set_ne (d : Obj) (k k' : String) (v : JSVal) (hk : k' ≠ k) :
    (d.set k v).get k' = d.get k' := by
  induction d with
  | nil => simp [Obj.set, Obj.get, Ne.symm hk]
  | cons p rest ih =>
    by_cases h : p.1 = k
    · have h' : ¬ p.1 = k' := fun e => hk (e.symm.trans h)
      simp [Obj.set, Obj.get, h, h', Ne.symm hk]
    · simp only [Obj.set, beq_iff_eq, h, if_false]
      by_cases h' : p.1 = k'
      · simp [Obj.get, h']
      · simpa [Obj.get, h'] using ih

theorem Obj.get_delete_ne (d : Obj) (k k' : String) (hk : k' ≠ k) :
    (d.delete k).get k' = d.get k' := by
  induction d with
  | nil => rfl
  | cons p rest ih =>
    have ih' : Obj.get (List.filter (fun p => !(p.1 == k)) rest) k' = Obj.get rest k' := ih
    by_cases h : p.1 = k
    · have h' : ¬ p.1 = k' := fun e => hk (e.symm.trans h)
      have e1 : Obj.delete (p :: rest) k = List.filter (fun p => !(p.1 == k)) rest := by
        simp [Obj.delete, List.filter_cons, h]
      have e2 : Obj.get (p :: rest) k' = Obj.get rest k' := by
        simp [Obj.get, List.find?_cons, h']
      rw [e1, e2, ih']
    · have e1 : Obj.delete (p :: rest) k = p :: List.filter (fun p => !(p.1 == k)) rest := by
        simp [Obj.delete, List.filter_cons, h]
      rw [e1]
      by_cases h' : p.1 = k'
      · simp [Obj.get, List.find?_cons, h']
      · have e2 : ∀ l : Obj, Obj.get (p :: l) k' = Obj.get l k' := by
          intro l
          simp [Obj.get, List.find?_cons, h']
        rw [e2, e2, ih']

/-! ## The record normalizer: what each field becomes -/

theorem normalizeNumbers_baseMean (parse : String → JSNum) (d : Obj) :
    (normalizeNumbers parse d).get "baseMean" = JSVal.num (assignedBaseMean parse d) := by
  simp only [normalizeNumbers, assignedBaseMean]
  rw [Obj.get_delete_ne _ _ _ (by decide), Obj.get_set_ne _ _ _ _ (by decide),
    Obj.get_delete_ne _ _ _ (by decide), Obj.get_set_self]
  rw [Obj.get_delete_ne _ _ _ (by decide), Obj.get_set_ne _ _ _ _ (by decide),
    Obj.get_delete_ne _ _ _ (by decide), Obj.get_set_ne _ _ _ _ (by decide),
    Obj.get_delete_ne _ _ _ (by decide), Obj.get_set_ne _ _ _ _ (by decide),
    Obj.get_delete_ne _ _ _ (by decide), Obj.get_set_ne _ _ _ _ (by decide)]

theorem normalizeNumbers_padj (parse : String → JSNum) (d : Obj) :
    (normalizeNumbers parse d).get "padj" = JSVal.num (assignedPadj parse d) := by
  simp only [normalizeNumbers, assignedPadj]
  rw [Obj.get_delete_ne _ _ _ (by decide), Obj.get_set_ne _ _ _ _ (by decide),
    Obj.get_delete_ne _ _ _ (by decide), Obj.get_set_ne _ _ _ _ (by decide),
    Obj.get_delete_ne _ _ _ (by decide), Obj.get_set_self]
  rw [Obj.get_delete_ne _ _ _ (by decide), Obj.get_set_ne _ _ _ _ (by decide),
    Obj.get_delete_ne _ _ _ (by decide), Obj.get_set_ne _ _ _ _ (by decide)]

theorem normalizeNumbers_log2FoldChange (parse : String → JSNum) (d : Obj) :
    (normalizeNumbers parse d).get "log2FoldChange" =
      JSVal.num (assignedLog2FoldChange parse d) := by
  simp only [normalizeNumbers, assignedLog2FoldChange]
  rw [Obj.get_delete_ne _ _ _ (by decide), Obj.get_set_self]
  rw [Obj.get_delete_ne _ _ _ (by decide), Obj.get_set_ne _ _ _ _ (by decide),
    Obj.get_delete_ne _ _ _ (by decide), Obj.get_set_ne _ _ _ _ (by decide),
    Obj.get_delete_ne _ _ _ (by decide), Obj.get_set_ne _ _ _ _ (by decide),
    Obj.get_delete_ne _ _ _ (by decide), Obj.get_set_ne _ _ _ _ (by decide),
    Obj.get_delete_ne _ _ _ (by decide), Obj.get_set_ne _ _ _ _ (by decide),
    Obj.get_delete_ne _ _ _ (by decide), Obj.get_set_ne _ _ _ _ (by decide)]

theorem normalizeNumbers_symbol (parse : String → JSNum) (d : Obj) :
    (normalizeNumbers parse d).get "symbol" = d.get "symbol" := by
  simp only [normalizeNumbers]
  rw [Obj.get_delete_ne _ _ _ (by decide), Obj.get_set_ne _ _ _ _ (by decide),
    Obj.get_delete_ne _ _ _ (by decide), Obj.get_set_ne _ _ _ _ (by decide),
    Obj.get_delete_ne _ _ _ (by decide), Obj.get_set_ne _ _ _ _ (by decide),
    Obj.get_delete_ne _ _ _ (by decide), Obj.get_set_ne _ _ _ _ (by decide)]

theorem normalizeNumbers_feature (parse : String → JSNum) (d : Obj) :
    (normalizeNumbers parse d).get "feature" = d.get "feature" := by
  simp only [normalizeNumbers]
  rw [Obj.get_delete_ne _ _ _ (by decide), Obj.get_set_ne _ _ _ _ (by decide),
    Obj.get_delete_ne _ _ _ (by decide), Obj.get_set_ne _ _ _ _ (by decide),
    Obj.get_delete_ne _ _ _ (by decide), Obj.get_set_ne _ _ _ _ (by decide),
    Obj.get_delete_ne _ _ _ (by decide), Obj.get_set_ne _ _ _ _ (by decide)]

theorem normalizeRow_of_str (parse : String → JSNum) (d : Obj) (s : String)
    (h : d.get "symbol" = JSVal.str s) :
    normalizeRow parse d =
      some (normalizedWith parse d s, JSNum.gt (assignedBaseMean parse d) baseMeanFloor) := by
  have hs : (normalizeNumbers parse d).get "symbol" = JSVal.str s := by
    rw [normalizeNumbers_symbol, h]
  simp only [normalizeRow, hs, normalizedWith]
  rw [Obj.get_set_ne _ _ _ _ (by decide), Obj.get_set_ne _ _ _ _ (by decide),
    Obj.get_set_ne _ _ _ _ (by decide), Obj.get_set_ne _ _ _ _ (by decide), hs,
    normalizeNumbers_feature, normalizeNumbers_baseMean]
  rfl

theorem normalizeRow_of_not_str (parse : String → JSNum) (d : Obj)
    (h : ∀ s, d.get "symbol" ≠ JSVal.str s) : normalizeRow parse d = none := by
  have hs : (normalizeNumbers parse d).get "symbol" = d.get "symbol" :=
    normalizeNumbers_symbol parse d
  unfold normalizeRow
  simp only []
  rw [hs]
  cases hd : d.get "symbol" with
  | str s => exact absurd hd (h s)
  | _ => rfl

theorem normalizeRow_some (parse : String → JSNum) (d d' : Obj) (keep : Bool)
    (h : normalizeRow parse d = some (d', keep)) :
    ∃ s, d.get "symbol" = JSVal.str s ∧ d' = normalizedWith parse d s ∧
      keep = JSNum.gt (assignedBaseMean parse d) baseMeanFloor := by
  cases hd : d.get "symbol" with
  | str s =>
    rw [normalizeRow_of_str parse d s hd] at h
    simp only [Option.some.injEq, Prod.mk.injEq] at h
    exact ⟨s, rfl, h.1.symm, h.2.symm⟩
  | _ =>
    rw [normalizeRow_of_not_str parse d (by intro s; rw [hd]; simp)] at h
    exact absurd h (by simp)

theorem normalizedWith_baseMean (parse : String → JSNum) (d : Obj) (s : String) :
    (normalizedWith parse d s).get "baseMean" = JSVal.num (assignedBaseMean parse d) := by
  unfold normalizedWith
  rw [Obj.get_set_ne _ _ _ _ (by decide), Obj.get_set_ne _ _ _ _ (by decide),
    normalizeNumbers_baseMean]

theorem normalizedWith_padj (parse : String → JSNum) (d : Obj) (s : String) :
    (normalizedWith parse d s).get "padj" = JSVal.num (assignedPadj parse d) := by
  unfold normalizedWith
  rw [Obj.get_set_ne _ _ _ _ (by decide), Obj.get_set_ne _ _ _ _ (by decide),
    normalizeNumbers_padj]

theorem normalizedWith_log2FoldChange (parse : String → JSNum) (d : Obj) (s : String) :
    (normalizedWith parse d s).get "log2FoldChange" =
      JSVal.num (assignedLog2FoldChange parse d) := by
  unfold normalizedWith
  rw [Obj.get_set_ne _ _ _ _ (by decide), Obj.get_set_ne _ _ _ _ (by decide),
    normalizeNumbers_log2FoldChange]

theorem normalizedWith_symbols (parse : String → JSNum) (d : Obj) (s : String) :
    (normalizedWith parse d s).get "symbols" =
      JSVal.strs (s.split (fun c => c == ';')) := by
  unfold normalizedWith
  rw [Obj.get_set_ne _ _ _ _ (by decide), Obj.get_set_self]

theorem normalizedWith_symbol (parse : String → JSNum) (d : Obj) (s : String) :
    (normalizedWith parse d s).get "symbol" = JSVal.or (JSVal.str s) (d.get "feature") := by
  unfold normalizedWith
  rw [Obj.get_set_self]

/-! ## Numbers: order facts -/

theorem JSNum.or_ne_nan (a b : JSNum) (hb : b ≠ JSNum.nan) : JSNum.or a b ≠ JSNum.nan := by
  unfold JSNum.or
  cases a <;> simp [JSNum.truthy, hb]
  split <;> simp [hb]

theorem assignedBaseMean_ne_nan (parse : String → JSNum) (d : Obj) :
    assignedBaseMean parse d ≠ JSNum.nan :=
  JSNum.or_ne_nan _ _ (by simp [baseMeanFloor])

theorem assignedLog2FoldChange_ne_nan (parse : String → JSNum) (d : Obj) :
    assignedLog2FoldChange parse d ≠ JSNum.nan :=
  JSNum.or_ne_nan _ _ (by simp)

theorem JSNum.gt_false_iff_le (a b : JSNum) (ha : a ≠ JSNum.nan) (hb : b ≠ JSNum.nan) :
    JSNum.gt a b = false ↔ JSNum.le a b = true := by
  cases a <;> cases b <;> simp_all [JSNum.gt, JSNum.lt, JSNum.le]

theorem JSNum.not_lt_iff_le (a b : JSNum) (ha : a ≠ JSNum.nan) (hb : b ≠ JSNum.nan) :
    (!(JSNum.lt a b)) = JSNum.le b a := by
  cases a <;> cases b <;> simp_all [JSNum.lt, JSNum.le]
  rw [Bool.eq_iff_iff]
  simp

/-! ## C3: a `padj` of zero -/

/-- C3 (evaluation at the failing input). For the row `rowPadjZero`, whose `padj` is the
number `0` and which has no `FDR`, the first numeric of (`padj`, `FDR`) is `0`, but the
callback of `processData` completes, keeps the row and assigns `padj = NaN`. -/
theorem processData_padj_zero_is_nan (parse : String → JSNum) :
    specPadj parse rowPadjZero = JSNum.fin 0 ∧
      ∃ d', normalizeRow parse rowPadjZero = some (d', true) ∧
        d'.get "padj" = JSVal.num JSNum.nan := by
  have hp : rowPadjZero.get "padj" = JSVal.num (JSNum.fin 0) := by decide
  have hf : rowPadjZero.get "FDR" = JSVal.undefined := by decide
  have hb : rowPadjZero.get "baseMean" = JSVal.num (JSNum.fin 5) := by decide
  refine ⟨?_, normalizedWith parse rowPadjZero "TP53", ?_, ?_⟩
  · simp [specPadj, specFirstNumeric, hp, JSVal.toNumber, JSNum.isNaN]
  · rw [normalizeRow_of_str parse rowPadjZero "TP53" (by decide)]
    have : JSNum.gt (assignedBaseMean parse rowPadjZero) baseMeanFloor = true := by
      norm_num [assignedBaseMean, hb, JSVal.toNumber, JSNum.or, JSNum.truthy,
        JSNum.gt, JSNum.lt, baseMeanFloor]
    rw [this]
  · rw [normalizedWith_padj]
    simp [assignedPadj, hp, hf, JSVal.toNumber, JSNum.or, JSNum.truthy]

/-! ## C4: a row without a symbol -/

/-- On a row whose `symbol` field is the string `s`, the callback completes, `symbols` is `s`
split on `;`, and `symbol` stays `s` unless `s` is empty, when it becomes the row's
`feature`. -/
theorem normalizeRow_symbols (parse : String → JSNum) (d : Obj) (s : String)
    (h : d.get "symbol" = JSVal.str s) :
    ∃ d' keep, normalizeRow parse d = some (d', keep) ∧
      d'.get "symbols" = JSVal.strs (s.split (fun c => c == ';')) ∧
      d'.get "symbol" = if s = "" then d.get "feature" else JSVal.str s := by
  refine ⟨_, _, normalizeRow_of_str parse d s h, normalizedWith_symbols parse d s, ?_⟩
  rw [normalizedWith_symbol]
  by_cases hs : s = "" <;> simp [JSVal.or, JSVal.truthy, hs]

/-- The specification's scenario row normalizes to `symbols = ["TP53", "BRCA1"]` and
`baseMean = 5`, and is kept. -/
theorem normalizeRow_scenario :
    (normalizeRow exampleParse rowScenario).map
        (fun r => (r.1.get "symbols", r.1.get "baseMean", r.2)) =
      some (JSVal.strs ["TP53", "BRCA1"], JSVal.num (JSNum.fin 5), true) := by
  decide!

/-- C4 (evaluation at the failing input). On a resource holding the row `rowNoSymbol`, which
has no `symbol` field, the callback throws at line 306: `processData` ends with a `TypeError`,
no record is produced and the state is as before. -/
theorem processData_no_symbol_throws (parse : String → JSNum) (inherited : String → Bool)
    (name : String) (c : Ctrl) :
    normalizeRow parse rowNoSymbol = none ∧
      processData parse inherited name [rowNoSymbol] c = (Outcome.typeError, c) := by
  have h : normalizeRow parse rowNoSymbol = none :=
    normalizeRow_of_not_str parse rowNoSymbol (by
      intro s
      have e : rowNoSymbol.get "symbol" = JSVal.undefined := by decide
      rw [e]
      simp)
  refine ⟨h, ?_⟩
  simp [processData, filterRows, h]

/-! ## The filter over the rows -/

theorem filterRows_mem (parse : String → JSNum) (rows data : List Obj)
    (h : filterRows parse rows = some data) (r : Obj) (hr : r ∈ data) :
    ∃ d ∈ rows, normalizeRow parse d = some (r, true) := by
  induction rows generalizing data with
  | nil =>
    simp only [filterRows, Option.some.injEq] at h
    subst h
    simp at hr
  | cons d rest ih =>
    unfold filterRows at h
    cases hd : normalizeRow parse d with
    | none => rw [hd] at h; simp at h
    | some p =>
      obtain ⟨d', keep⟩ := p
      rw [hd] at h
      cases hrest : filterRows parse rest with
      | none => rw [hrest] at h; simp at h
      | some out =>
        rw [hrest] at h
        simp only [Option.some.injEq] at h
        subst h
        cases keep with
        | false =>
          simp only [Bool.false_eq_true, if_false] at hr
          obtain ⟨d0, hd0, hn⟩ := ih out hrest hr
          exact ⟨d0, List.mem_cons_of_mem _ hd0, hn⟩
        | true =>
          simp only [if_true, List.mem_cons] at hr
          rcases hr with rfl | hr
          · exact ⟨d, List.mem_cons_self _ _, hd⟩
          · obtain ⟨d0, hd0, hn⟩ := ih out hrest hr
            exact ⟨d0, List.mem_cons_of_mem _ hd0, hn⟩

theorem filterRows_complete (parse : String → JSNum) (rows data : List Obj)
    (h : filterRows parse rows = some data) (d r : Obj) (hd : d ∈ rows)
    (hn : normalizeRow parse d = some (r, true)) : r ∈ data := by
  induction rows generalizing data with
  | nil => simp at hd
  | cons d0 rest ih =>
    unfold filterRows at h
    cases hd0 : normalizeRow parse d0 with
    | none => rw [hd0] at h; simp at h
    | some p =>
      obtain ⟨d', keep⟩ := p
      rw [hd0] at h
      cases hrest : filterRows parse rest with
      | none => rw [hrest] at h; simp at h
      | some out =>
        rw [hrest] at h
        simp only [Option.some.injEq] at h
        subst h
        rcases List.mem_cons.mp hd with rfl | hd
        · rw [hn] at hd0
          simp only [Option.some.injEq, Prod.mk.injEq] at hd0
          obtain ⟨rfl, rfl⟩ := hd0
          simp
        · have := ih out hrest hd
          cases keep <;> simp [this]

theorem filterRows_total (parse : String → JSNum) (rows : List Obj)
    (h : ∀ d ∈ rows, ∃ s, d.get "symbol" = JSVal.str s) :
    ∃ data, filterRows parse rows = some data := by
  induction rows with
  | nil => exact ⟨[], rfl⟩
  | cons d rest ih =>
    obtain ⟨s, hs⟩ := h d (List.mem_cons_self _ _)
    obtain ⟨out, hout⟩ := ih (fun d' hd' => h d' (List.mem_cons_of_mem _ hd'))
    unfold filterRows
    rw [normalizeRow_of_str parse d s hs, hout]
    exact ⟨_, rfl⟩

theorem filterRows_none_or_nil (parse : String → JSNum) (rows : List Obj)
    (h : ∀ d ∈ rows, ∀ d', normalizeRow parse d ≠ some (d', true)) :
    filterRows parse rows = none ∨ filterRows parse rows = some [] := by
  cases hf : filterRows parse rows with
  | none => exact Or.inl rfl
  | some data =>
    right
    cases data with
    | nil => rfl
    | cons r rest =>
      obtain ⟨d, hd, hn⟩ := filterRows_mem parse rows _ hf r (List.mem_cons_self _ _)
      exact absurd hn (h d hd r)

/-- When no row normalizes to a base mean above `0.001`, `processData` commits nothing: the
state is unchanged but for the reported errors, whether the call reports the failure or
throws. -/
theorem processData_nothing_kept (parse : String → JSNum) (inherited : String → Bool)
    (name : String) (rows : List Obj) (c : Ctrl)
    (h : ∀ d ∈ rows, ∀ d', normalizeRow parse d ≠ some (d', true)) :
    processData parse inherited name rows c = (Outcome.typeError, c) ∨
      processData parse inherited name rows c =
        (Outcome.noFeatures,
          { c with errors := c.errors ++ ["Failed to find any features in " ++ name] }) := by
  rcases filterRows_none_or_nil parse rows h with hf | hf
  · left
    simp [processData, hf]
  · right
    simp [processData, hf]

/-- When every row carries a string symbol and none normalizes to a base mean above `0.001`,
`processData` reports the failure and commits nothing. -/
theorem processData_reports_noFeatures (parse : String → JSNum) (inherited : String → Bool)
    (name : String) (rows : List Obj) (c : Ctrl)
    (hs : ∀ d ∈ rows, ∃ s, d.get "symbol" = JSVal.str s)
    (h : ∀ d ∈ rows, ∀ d', normalizeRow parse d ≠ some (d', true)) :
    processData parse inherited name rows c =
      (Outcome.noFeatures,
        { c with errors := c.errors ++ ["Failed to find any features in " ++ name] }) := by
  obtain ⟨data, hd⟩ := filterRows_total parse rows hs
  rcases filterRows_none_or_nil parse rows h with hf | hf
  · rw [hf] at hd
    simp at hd
  · simp [processData, hf]

/-! ## C1: a load that finds no feature -/

/-- C1 (evaluation at the failing input). In the resource holding only
`rowNoSymbolUnexpressed` no row normalizes to a base mean above `0.001` (line 300 assigns
`0.001`), yet `processData` does not report the failure: line 306 throws first, the call ends
with a `TypeError`, and the state, the reported errors included, is as before. -/
theorem processData_no_symbol_no_report (parse : String → JSNum) (inherited : String → Bool)
    (name : String) (c : Ctrl) :
    assignedBaseMean parse rowNoSymbolUnexpressed = baseMeanFloor ∧
      (∀ d ∈ [rowNoSymbolUnexpressed], ∀ d', normalizeRow parse d ≠ some (d', true)) ∧
      processData parse inherited name [rowNoSymbolUnexpressed] c = (Outcome.typeError, c) := by
  have hb : rowNoSymbolUnexpressed.get "baseMean" = JSVal.num (JSNum.fin 0) := by decide
  have hl : rowNoSymbolUnexpressed.get "logCPM" = JSVal.undefined := by decide
  have hsym : rowNoSymbolUnexpressed.get "symbol" = JSVal.undefined := by decide
  have h : normalizeRow parse rowNoSymbolUnexpressed = none :=
    normalizeRow_of_not_str parse rowNoSymbolUnexpressed (by intro s; rw [hsym]; simp)
  refine ⟨?_, ?_, ?_⟩
  · simp [assignedBaseMean, hb, hl, JSVal.toNumber, JSNum.or, JSNum.truthy]
  · intro d hd d'
    rw [List.mem_singleton.mp hd, h]
    simp
  · simp [processData, filterRows, h]

/-! ## What a successful load commits -/

theorem processData_loaded (parse : String → JSNum) (inherited : String → Bool)
    (name : String) (rows : List Obj) (c c' : Ctrl)
    (h : processData parse inherited name rows c = (Outcome.loaded, c')) :
    ∃ data, filterRows parse rows = some data ∧ data ≠ [] ∧
      c'.cf = some (loadedCrossfilter data) ∧
      c'.data = some ((loadedCrossfilter data).topByBaseMean parse) ∧
      c'.gridData = some ((loadedCrossfilter data).topByBaseMean parse) ∧
      c'.uniqGeneMap = some (buildGeneIndex inherited (fullGeneList data)) ∧
      c'.uniqGeneList = some (buildGeneIndex inherited (fullGeneList data)) ∧
      c'.geneList =
        addSymbolsWith (lookupGene inherited (buildGeneIndex inherited (fullGeneList data))) []
          c.gene := by
  unfold processData at h
  cases hf : filterRows parse rows with
  | none => rw [hf] at h; simp at h
  | some data =>
    rw [hf] at h
    simp only [] at h
    by_cases hlen : data.length < 1
    · rw [if_pos hlen] at h
      simp at h
    · rw [if_neg hlen] at h
      have hne : data ≠ [] := by
        intro e
        rw [e] at hlen
        simp at hlen
      refine ⟨data, rfl, hne, ?_⟩
      split at h
      · simp at h
      · next first rest heq =>
        simp only [Prod.mk.injEq, true_and] at h
        subst h
        refine ⟨rfl, ?_, ?_, rfl, rfl, rfl⟩ <;> rfl

theorem mem_topByBaseMean (parse : String → JSNum) (cf : Crossfilter) (r : Obj) :
    r ∈ cf.topByBaseMean parse ↔ r ∈ cf.records ∧ cf.passes parse r = true := by
  unfold Crossfilter.topByBaseMean
  rw [List.mem_reverse, (List.perm_insertionSort _ _).mem_iff, List.mem_filter]

theorem mem_topByLog2FoldChange (parse : String → JSNum) (cf : Crossfilter) (r : Obj) :
    r ∈ cf.topByLog2FoldChange parse ↔ r ∈ cf.records ∧ cf.passes parse r = true := by
  unfold Crossfilter.topByLog2FoldChange
  rw [List.mem_reverse, (List.perm_insertionSort _ _).mem_iff, List.mem_filter]

/-- Every record that the filter keeps carries the numbers that lines 300 and 303 assign;
its base mean is above `0.001`, and neither number is NaN. -/
theorem filterRows_record (parse : String → JSNum) (rows data : List Obj)
    (h : filterRows parse rows = some data) (r : Obj) (hr : r ∈ data) :
    JSNum.gt (baseMeanOf parse r) baseMeanFloor = true ∧ baseMeanOf parse r ≠ JSNum.nan ∧
      log2FoldChangeOf parse r ≠ JSNum.nan := by
  obtain ⟨d, _, hn⟩ := filterRows_mem parse rows data h r hr
  obtain ⟨s, _, hr', hk⟩ := normalizeRow_some parse d r true hn
  subst hr'
  have hb : baseMeanOf parse (normalizedWith parse d s) = assignedBaseMean parse d := by
    unfold baseMeanOf
    rw [normalizedWith_baseMean]
    rfl
  have hl : log2FoldChangeOf parse (normalizedWith parse d s) =
      assignedLog2FoldChange parse d := by
    unfold log2FoldChangeOf
    rw [normalizedWith_log2FoldChange]
    rfl
  rw [hb, hl]
  exact ⟨hk.symm, assignedBaseMean_ne_nan parse d, assignedLog2FoldChange_ne_nan parse d⟩

/-! ## C5: the base-mean gate -/

/-- The inclusion decision on the specification's "first numeric" base mean is the decision
on the assigned base mean, except for a `baseMean` of `0` next to a `logCPM` above `0.001`. -/
theorem specBaseMean_le_floor (parse : String → JSNum) (d : Obj)
    (h : ¬ ((d.get "baseMean").toNumber parse = JSNum.fin 0 ∧
      JSNum.gt ((d.get "logCPM").toNumber parse) baseMeanFloor = true)) :
    JSNum.le (specBaseMean parse d) baseMeanFloor =
      JSNum.le (assignedBaseMean parse d) baseMeanFloor := by
  unfold specBaseMean assignedBaseMean specFirstNumeric JSNum.or
  revert h
  generalize (d.get "baseMean").toNumber parse = a
  generalize (d.get "logCPM").toNumber parse = b
  intro h
  cases a with
  | nan =>
    cases b with
    | fin q =>
      by_cases hq : q = 0
      · subst hq
        norm_num [JSNum.isNaN, JSNum.truthy, JSNum.le, baseMeanFloor]
      · simp [JSNum.isNaN, JSNum.truthy, hq]
    | _ => simp [JSNum.isNaN, JSNum.truthy]
  | fin p =>
    by_cases hp : p = 0
    · subst hp
      have hb : JSNum.gt b baseMeanFloor = false := by
        cases hg : JSNum.gt b baseMeanFloor with
        | false => rfl
        | true => exact absurd ⟨rfl, hg⟩ h
      cases b with
      | fin q =>
        by_cases hq : q = 0
        · subst hq
          norm_num [JSNum.isNaN, JSNum.truthy, JSNum.le, baseMeanFloor]
        · have hq' : q ≤ 1 / 1000 := by
            simpa [JSNum.gt, JSNum.lt, baseMeanFloor] using hb
          have h0 : decide ((0 : ℚ) ≤ 1 / 1000) = true := by norm_num
          simp only [JSNum.isNaN, JSNum.truthy, JSNum.le, baseMeanFloor, ne_eq, hq,
            not_false_eq_true, decide_True, decide_False, not_true_eq_false, Bool.not_false,
            if_true, Bool.false_eq_true, if_false, h0]
          simpa using hq'
      | pinf => simp [JSNum.gt, JSNum.lt, baseMeanFloor] at hb
      | _ => norm_num [JSNum.isNaN, JSNum.truthy, JSNum.le, baseMeanFloor]
    · simp [JSNum.isNaN, JSNum.truthy, hp]
  | _ => simp [JSNum.isNaN, JSNum.truthy]

/-- C5 (evaluation at the failing input). The row `rowZeroBaseMean` has a `baseMean` of `0`,
so its first numeric of (`baseMean`, `logCPM`) is `0`, which is at most `0.001`; yet the
callback does not drop the row: line 300 assigns the `logCPM` value `5` and the row is
kept. -/
theorem baseMean_first_numeric_not_gate :
    specBaseMean exampleParse rowZeroBaseMean = JSNum.fin 0 ∧
      JSNum.le (specBaseMean exampleParse rowZeroBaseMean) baseMeanFloor = true ∧
      (normalizeRow exampleParse rowZeroBaseMean).map Prod.snd = some true ∧
      assignedBaseMean exampleParse rowZeroBaseMean = JSNum.fin 5 := by
  decide!

/-- The part of C5 that holds. For every row on which the callback completes, the row is
dropped exactly when the base mean that line 300 assigns is at most `0.001`; that value is
never NaN, and the decision is the one on the first numeric of (`baseMean`, `logCPM`), else
`0.001`, unless `baseMean` is `0` and `logCPM` is above `0.001`. Hence after a successful load
every record of the filter engine, of `dataState.data` and of `gridOptions.data` has a base
mean above `0.001` that is not NaN. -/
theorem processData_baseMean_gate (parse : String → JSNum) (inherited : String → Bool)
    (name : String) (rows : List Obj) (c c' : Ctrl)
    (h : processData parse inherited name rows c = (Outcome.loaded, c')) :
    (∀ d d' keep, normalizeRow parse d = some (d', keep) →
      baseMeanOf parse d' = assignedBaseMean parse d ∧ baseMeanOf parse d' ≠ JSNum.nan ∧
      (keep = false ↔ JSNum.le (baseMeanOf parse d') baseMeanFloor = true) ∧
      (¬ ((d.get "baseMean").toNumber parse = JSNum.fin 0 ∧
          JSNum.gt ((d.get "logCPM").toNumber parse) baseMeanFloor = true) →
        (keep = false ↔ JSNum.le (specBaseMean parse d) baseMeanFloor = true))) ∧
    ∃ cf data grid, c'.cf = some cf ∧ c'.data = some data ∧ c'.gridData = some grid ∧
      ∀ r, r ∈ cf.records ∨ r ∈ data ∨ r ∈ grid →
        JSNum.gt (baseMeanOf parse r) baseMeanFloor = true ∧ baseMeanOf parse r ≠ JSNum.nan := by
  constructor
  · intro d d' keep hn
    obtain ⟨s, _, hd', hk⟩ := normalizeRow_some parse d d' keep hn
    subst hd'
    have hb : baseMeanOf parse (normalizedWith parse d s) = assignedBaseMean parse d := by
      unfold baseMeanOf
      rw [normalizedWith_baseMean]
      rfl
    have hgate : keep = false ↔ JSNum.le (assignedBaseMean parse d) baseMeanFloor = true := by
      rw [hk]
      exact JSNum.gt_false_iff_le _ _ (assignedBaseMean_ne_nan parse d)
        (by simp [baseMeanFloor])
    rw [hb]
    refine ⟨rfl, assignedBaseMean_ne_nan parse d, hgate, ?_⟩
    intro hz
    rw [specBaseMean_le_floor parse d hz]
    exact hgate
  · obtain ⟨data, hf, _, hcf, hdata, hgrid, _⟩ :=
      processData_loaded parse inherited name rows c c' h
    refine ⟨_, _, _, hcf, hdata, hgrid, ?_⟩
    intro r hr
    have hmem : r ∈ data := by
      rcases hr with hr | hr | hr
      · exact hr
      · exact ((mem_topByBaseMean parse _ r).mp hr).1
      · exact ((mem_topByBaseMean parse _ r).mp hr).1
    have := filterRows_record parse rows data hf r hmem
    exact ⟨this.1, this.2.1⟩

/-- The scenario row loads, and its record has a base mean above `0.001`. -/
theorem processData_baseMean_gate_example :
    ∃ c', processData exampleParse inheritedName "res" [rowScenario] (initialCtrl "TP53") =
        (Outcome.loaded, c') ∧
      ∃ cf, c'.cf = some cf ∧ cf.records ≠ [] ∧
        ∀ r ∈ cf.records, JSNum.gt (baseMeanOf exampleParse r) baseMeanFloor = true := by
  have h : processData exampleParse inheritedName "res" [rowScenario] (initialCtrl "TP53") =
      (Outcome.loaded,
        (processData exampleParse inheritedName "res" [rowScenario] (initialCtrl "TP53")).2) :=
    Prod.ext (by decide!) rfl
  obtain ⟨_, cf, data, grid, hcf, _, _, hall⟩ :=
    processData_baseMean_gate exampleParse inheritedName "res" [rowScenario] (initialCtrl "TP53")
      _ h
  obtain ⟨data', _, hne, hcf', _⟩ :=
    processData_loaded exampleParse inheritedName "res" [rowScenario] (initialCtrl "TP53") _ h
  refine ⟨_, h, cf, hcf, ?_, fun r hr => (hall r (Or.inl hr)).1⟩
  rw [hcf'] at hcf
  simp only [Option.some.injEq] at hcf
  rw [← hcf]
  exact hne

/-! ## The gene index -/

theorem any_symbol_iff (m : List GeneEntry) (x : String) :
    m.any (fun e => e.symbol == x) = true ↔ x ∈ m.map GeneEntry.symbol := by
  simp only [List.any_eq_true, beq_iff_eq, List.mem_map]

theorem countSymbol_keys_old (inherited : String → Bool) (m : List GeneEntry) (x : String)
    (h : x ∈ m.map GeneEntry.symbol ∨ inherited x = true) :
    (countSymbol inherited m x).map GeneEntry.symbol = m.map GeneEntry.symbol := by
  unfold countSymbol
  by_cases hown : m.any (fun e => e.symbol == x) = true
  · rw [if_pos hown, List.map_map]
    apply List.map_congr_left
    intro e _
    simp only [Function.comp]
    split <;> rfl
  · rw [if_neg hown]
    have hinh : inherited x = true := by
      rcases h with h | h
      · exact absurd ((any_symbol_iff m x).mpr h) hown
      · exact h
    rw [if_pos hinh]

theorem countSymbol_keys_new (inherited : String → Bool) (m : List GeneEntry) (x : String)
    (h : ¬ (x ∈ m.map GeneEntry.symbol ∨ inherited x = true)) :
    (countSymbol inherited m x).map GeneEntry.symbol = m.map GeneEntry.symbol ++ [x] := by
  unfold countSymbol
  have hown : ¬ m.any (fun e => e.symbol == x) = true :=
    fun hown => h (Or.inl ((any_symbol_iff m x).mp hown))
  have hinh : ¬ inherited x = true := fun hinh => h (Or.inr hinh)
  rw [if_neg hown, if_neg hinh]
  simp

theorem countIn_countSymbol (inherited : String → Bool) (m : List GeneEntry) (x s : String)
    (hs : inherited s = false) :
    countIn (countSymbol inherited m x) s = countIn m s + (if x = s then 1 else 0) := by
  unfold countSymbol
  by_cases hown : m.any (fun e => e.symbol == x) = true
  · rw [if_pos hown]
    unfold countIn
    rw [List.find?_map]
    have hcomp : ((fun e : GeneEntry => e.symbol == s) ∘
        fun e : GeneEntry => if (e.symbol == x) = true then { e with count := e.count + 1 } else e)
        = fun e : GeneEntry => e.symbol == s := by
      funext e
      simp only [Function.comp]
      split <;> rfl
    rw [hcomp]
    cases hfind : m.find? (fun e => e.symbol == s) with
    | none =>
      have hx : x ≠ s := by
        intro e
        subst e
        rw [List.find?_eq_none] at hfind
        obtain ⟨e, he, hex⟩ := List.any_eq_true.mp hown
        exact hfind e he hex
      simp [hx]
    | some e =>
      have hes : e.symbol = s := by simpa using List.find?_some hfind
      by_cases hx : x = s
      · subst hx
        simp [hes]
      · have : ¬ e.symbol = x := fun h => hx (h.symm.trans hes)
        simp [hx, this]
  · rw [if_neg hown]
    by_cases hinh : inherited x = true
    · rw [if_pos hinh]
      have hx : x ≠ s := by
        intro e
        subst e
        rw [hs] at hinh
        exact absurd hinh (by simp)
      simp [hx]
    · rw [if_neg hinh]
      unfold countIn
      rw [List.find?_append]
      by_cases hx : x = s
      · subst hx
        have hnone : m.find? (fun e => e.symbol == x) = none := by
          rw [List.find?_eq_none]
          intro e he hex
          exact hown (List.any_eq_true.mpr ⟨e, he, hex⟩)
        simp [hnone]
      · cases hfind : m.find? (fun e => e.symbol == s) with
        | none => simp [hx]
        | some e => simp [hx]

theorem foldl_countSymbol_countIn (inherited : String → Bool) (l : List String)
    (m : List GeneEntry) (s : String) (hs : inherited s = false) :
    countIn (l.foldl (countSymbol inherited) m) s = countIn m s + l.count s := by
  induction l generalizing m with
  | nil => simp
  | cons x rest ih =>
    rw [List.foldl_cons, ih, countIn_countSymbol inherited m x s hs, List.count_cons]
    by_cases hx : x = s
    · simp [hx]
      omega
    · simp [hx]

theorem foldl_countSymbol_keys (inherited : String → Bool) (l : List String)
    (m : List GeneEntry) (s : String) :
    s ∈ (l.foldl (countSymbol inherited) m).map GeneEntry.symbol ↔
      s ∈ m.map GeneEntry.symbol ∨ (s ∈ l ∧ inherited s = false) := by
  induction l generalizing m with
  | nil => simp
  | cons x rest ih =>
    rw [List.foldl_cons, ih]
    by_cases hc : x ∈ m.map GeneEntry.symbol ∨ inherited x = true
    · rw [countSymbol_keys_old inherited m x hc]
      constructor
      · rintro (h | ⟨h, hi⟩)
        · exact Or.inl h
        · exact Or.inr ⟨List.mem_cons_of_mem _ h, hi⟩
      · rintro (h | ⟨h, hi⟩)
        · exact Or.inl h
        · rcases List.mem_cons.mp h with rfl | h
          · rcases hc with hc | hc
            · exact Or.inl hc
            · rw [hi] at hc
              exact absurd hc (by simp)
          · exact Or.inr ⟨h, hi⟩
    · rw [countSymbol_keys_new inherited m x hc]
      have hx : inherited x = false := by
        cases hi : inherited x with
        | false => rfl
        | true => exact absurd (Or.inr hi) hc
      constructor
      · rintro (h | ⟨h, hi⟩)
        · rcases List.mem_append.mp h with h | h
          · exact Or.inl h
          · rw [List.mem_singleton.mp h]
            exact Or.inr ⟨List.mem_cons_self _ _, hx⟩
        · exact Or.inr ⟨List.mem_cons_of_mem _ h, hi⟩
      · rintro (h | ⟨h, hi⟩)
        · exact Or.inl (List.mem_append_left _ h)
        · rcases List.mem_cons.mp h with rfl | h
          · exact Or.inl (List.mem_append_right _ (List.mem_singleton_self _))
          · exact Or.inr ⟨h, hi⟩

theorem foldl_countSymbol_nodup (inherited : String → Bool) (l : List String)
    (m : List GeneEntry) (hm : (m.map GeneEntry.symbol).Nodup) :
    ((l.foldl (countSymbol inherited) m).map GeneEntry.symbol).Nodup := by
  induction l generalizing m with
  | nil => exact hm
  | cons x rest ih =>
    rw [List.foldl_cons]
    apply ih
    by_cases hc : x ∈ m.map GeneEntry.symbol ∨ inherited x = true
    · rw [countSymbol_keys_old inherited m x hc]
      exact hm
    · rw [countSymbol_keys_new inherited m x hc]
      rw [List.nodup_append]
      refine ⟨hm, List.nodup_singleton _, ?_⟩
      intro a ha hb
      rw [List.mem_singleton.mp hb] at ha
      exact hc (Or.inl ha)

theorem countIn_of_mem (m : List GeneEntry) (hm : (m.map GeneEntry.symbol).Nodup)
    (e : GeneEntry) (he : e ∈ m) : countIn m e.symbol = e.count := by
  induction m with
  | nil => simp at he
  | cons a rest ih =>
    rw [List.map_cons, List.nodup_cons] at hm
    unfold countIn
    rw [List.find?_cons]
    rcases List.mem_cons.mp he with rfl | he
    · simp
    · have hne : ¬ a.symbol = e.symbol := by
        intro h
        exact hm.1 (h ▸ List.mem_map_of_mem _ he)
      have hb : (a.symbol == e.symbol) = false := by simpa using hne
      rw [hb]
      exact ih hm.2 he

theorem count_fullGeneList (data : List Obj) (s : String) :
    (fullGeneList data).count s = occurrences data s := by
  unfold fullGeneList occurrences
  rw [(List.perm_insertionSort _ _).count_eq]
  induction data with
  | nil => rfl
  | cons r rest ih => simp [List.flatMap_cons, List.count_append, ih]

theorem mem_fullGeneList (data : List Obj) (s : String) :
    s ∈ fullGeneList data ↔ ∃ r ∈ data, s ∈ symbolsOf r := by
  unfold fullGeneList
  rw [(List.perm_insertionSort _ _).mem_iff, List.mem_flatMap]

theorem occurrences_eq_recordsListing (data : List Obj) (s : String)
    (h : ∀ r ∈ data, (symbolsOf r).Nodup) : occurrences data s = recordsListing data s := by
  unfold occurrences recordsListing
  induction data with
  | nil => rfl
  | cons r rest ih =>
    have hr := h r (List.mem_cons_self _ _)
    have ih' := ih (fun r' hr' => h r' (List.mem_cons_of_mem _ hr'))
    rw [List.map_cons, List.sum_cons, List.countP_cons, ih']
    by_cases hs : s ∈ symbolsOf r
    · rw [List.count_eq_one_of_mem hr hs]
      simp [hs]
      omega
    · rw [List.count_eq_zero_of_not_mem hs]
      simp [hs]

/-! ## C6: the counts of the gene index -/

/-- C6 (counterexample). The resource holding only `rowRepeatedSymbol`, whose symbol field is
`"A;A"`, loads; one record lists `A`, but the entry of `A` in `uniqGeneMap` has count `2`. -/
theorem geneIndex_counts_repeats :
    recordsListing [normalizedWith exampleParse rowRepeatedSymbol "A;A"] "A" = 1 ∧
      (processData exampleParse inheritedName "res" [rowRepeatedSymbol] (initialCtrl "")).1 =
        Outcome.loaded ∧
      (processData exampleParse inheritedName "res" [rowRepeatedSymbol]
        (initialCtrl "")).2.uniqGeneMap = some [{ symbol := "A", count := 2 }] := by
  decide!

/-- C6 (amended). After every successful `processData`, `uniqGeneMap` and `uniqGeneList` hold
the same entries, one per distinct symbol; for every symbol `s` that is not the name of a
member inherited from `Object.prototype`, there is an entry for `s` exactly when some kept
record lists `s`, and its count is the number of times `s` is listed in the `symbols` arrays
of the kept records, a record that lists `s` twice counting twice. When no record lists a
symbol twice, that number is the number of records listing `s`. -/
theorem processData_geneIndex (parse : String → JSNum) (inherited : String → Bool)
    (name : String) (rows : List Obj) (c c' : Ctrl)
    (h : processData parse inherited name rows c = (Outcome.loaded, c')) :
    ∃ data index, filterRows parse rows = some data ∧ c'.uniqGeneMap = some index ∧
      c'.uniqGeneList = some index ∧ (index.map GeneEntry.symbol).Nodup ∧
      ∀ s, inherited s = false →
        ((∃ e ∈ index, e.symbol = s) ↔ ∃ r ∈ data, s ∈ symbolsOf r) ∧
        (∀ e ∈ index, e.symbol = s → e.count = occurrences data s) ∧
        ((∀ r ∈ data, (symbolsOf r).Nodup) →
          ∀ e ∈ index, e.symbol = s → e.count = recordsListing data s) := by
  obtain ⟨data, hf, _, _, _, _, hmap, hlist, _⟩ :=
    processData_loaded parse inherited name rows c c' h
  have hnd : ((buildGeneIndex inherited (fullGeneList data)).map GeneEntry.symbol).Nodup :=
    foldl_countSymbol_nodup inherited _ [] (by simp)
  refine ⟨data, _, hf, hmap, hlist, hnd, ?_⟩
  intro s hs
  have hcount : ∀ e ∈ buildGeneIndex inherited (fullGeneList data), e.symbol = s →
      e.count = occurrences data s := by
    intro e he hes
    have h1 := countIn_of_mem _ hnd e he
    rw [hes] at h1
    have h2 := foldl_countSymbol_countIn inherited (fullGeneList data) [] s hs
    have h3 : countIn [] s = 0 := rfl
    rw [h3, Nat.zero_add, count_fullGeneList] at h2
    unfold buildGeneIndex at h1
    rw [← h1, h2]
  refine ⟨?_, hcount, ?_⟩
  · have hk := foldl_countSymbol_keys inherited (fullGeneList data) [] s
    rw [mem_fullGeneList] at hk
    constructor
    · rintro ⟨e, he, hes⟩
      have : s ∈ (buildGeneIndex inherited (fullGeneList data)).map GeneEntry.symbol :=
        hes ▸ List.mem_map_of_mem _ he
      rcases hk.mp this with h0 | ⟨h1, _⟩
      · simp at h0
      · exact h1
    · intro hr
      obtain ⟨e, he, hes⟩ := List.mem_map.mp (hk.mpr (Or.inr ⟨hr, hs⟩))
      exact ⟨e, he, hes⟩
  · intro hnodup e he hes
    rw [hcount e he hes, occurrences_eq_recordsListing data s hnodup]

/-- C6 (witness). The scenario row loads, and the gene index of the loaded state holds one
entry per symbol. -/
theorem processData_geneIndex_witness :
    ∃ c', processData exampleParse inheritedName "res" [rowScenario] (initialCtrl "") =
        (Outcome.loaded, c') ∧
      ∃ index, c'.uniqGeneMap = some index ∧ c'.uniqGeneList = some index ∧
        (index.map GeneEntry.symbol).Nodup := by
  have h : processData exampleParse inheritedName "res" [rowScenario] (initialCtrl "") =
      (Outcome.loaded,
        (processData exampleParse inheritedName "res" [rowScenario] (initialCtrl "")).2) :=
    Prod.ext (by decide!) rfl
  obtain ⟨_, index, _, hmap, hlist, hnd, _⟩ :=
    processData_geneIndex exampleParse inheritedName "res" [rowScenario] (initialCtrl "") _ h
  exact ⟨_, h, index, hmap, hlist, hnd⟩

/-! ## C7: adding symbols twice -/

theorem addSymbol_subset {ε : Type} [DecidableEq ε] (lookup : String → Option ε)
    (g : List ε) (s : String) (a : ε) (ha : a ∈ g) : a ∈ addSymbol lookup g s := by
  unfold addSymbol
  cases lookup s with
  | none => exact ha
  | some item =>
    simp only []
    split
    · exact ha
    · exact List.mem_append_left _ ha

theorem addSymbol_mem {ε : Type} [DecidableEq ε] (lookup : String → Option ε)
    (g : List ε) (s : String) (item : ε) (h : lookup s = some item) :
    item ∈ addSymbol lookup g s := by
  unfold addSymbol
  rw [h]
  simp only []
  split
  · next hc => simpa using hc
  · exact List.mem_append_right _ (List.mem_singleton_self _)

theorem addSymbol_nodup {ε : Type} [DecidableEq ε] (lookup : String → Option ε)
    (g : List ε) (s : String) (hg : g.Nodup) : (addSymbol lookup g s).Nodup := by
  unfold addSymbol
  cases lookup s with
  | none => exact hg
  | some item =>
    simp only []
    split
    · exact hg
    · next hc =>
      rw [List.nodup_append]
      refine ⟨hg, List.nodup_singleton _, ?_⟩
      intro a ha hb
      rw [List.mem_singleton.mp hb] at ha
      exact hc (by simpa using ha)

theorem addSymbol_fixed {ε : Type} [DecidableEq ε] (lookup : String → Option ε)
    (g : List ε) (s : String) (h : ∀ item, lookup s = some item → item ∈ g) :
    addSymbol lookup g s = g := by
  unfold addSymbol
  cases hl : lookup s with
  | none => rfl
  | some item =>
    have : g.contains item = true := by simpa using h item hl
    simp only [this, if_true]

theorem foldl_addSymbol_subset {ε : Type} [DecidableEq ε] (lookup : String → Option ε)
    (l : List String) (g : List ε) (a : ε) (ha : a ∈ g) :
    a ∈ l.foldl (addSymbol lookup) g := by
  induction l generalizing g with
  | nil => exact ha
  | cons s rest ih => exact ih _ (addSymbol_subset lookup g s a ha)

theorem foldl_addSymbol_mem {ε : Type} [DecidableEq ε] (lookup : String → Option ε)
    (l : List String) (g : List ε) (s : String) (hs : s ∈ l) (item : ε)
    (h : lookup s = some item) : item ∈ l.foldl (addSymbol lookup) g := by
  induction l generalizing g with
  | nil => simp at hs
  | cons x rest ih =>
    rcases List.mem_cons.mp hs with rfl | hs
    · exact foldl_addSymbol_subset lookup rest _ item (addSymbol_mem lookup g s item h)
    · exact ih _ hs

theorem foldl_addSymbol_nodup {ε : Type} [DecidableEq ε] (lookup : String → Option ε)
    (l : List String) (g : List ε) (hg : g.Nodup) : (l.foldl (addSymbol lookup) g).Nodup := by
  induction l generalizing g with
  | nil => exact hg
  | cons s rest ih => exact ih _ (addSymbol_nodup lookup g s hg)

theorem foldl_addSymbol_fixed {ε : Type} [DecidableEq ε] (lookup : String → Option ε)
    (l : List String) (g : List ε)
    (h : ∀ s ∈ l, ∀ item, lookup s = some item → item ∈ g) :
    l.foldl (addSymbol lookup) g = g := by
  induction l with
  | nil => rfl
  | cons s rest ih =>
    rw [List.foldl_cons, addSymbol_fixed lookup g s (h s (List.mem_cons_self _ _))]
    exact ih (fun s' hs' => h s' (List.mem_cons_of_mem _ hs'))

theorem addSymbolsWith_twice {ε : Type} [DecidableEq ε] (lookup : String → Option ε)
    (geneList : List ε) (text : String) :
    addSymbolsWith lookup (addSymbolsWith lookup geneList text) text =
      addSymbolsWith lookup geneList text := by
  unfold addSymbolsWith
  exact foldl_addSymbol_fixed lookup _ _
    (fun s hs item hi => foldl_addSymbol_mem lookup _ geneList s hs item hi)

theorem addSymbolsWith_nodup {ε : Type} [DecidableEq ε] (lookup : String → Option ε)
    (geneList : List ε) (text : String) (h : geneList.Nodup) :
    (addSymbolsWith lookup geneList text).Nodup :=
  foldl_addSymbol_nodup lookup _ geneList h

/-- C7. For every gene index `lookup`, every duplicate-free gene list and every text, calling
`addSymbols` twice with the text yields the same gene list, entry for entry, as calling it
once (so also the same length), and the gene list is duplicate-free after each call. Items
are compared by identity, as `includes` does. -/
theorem addSymbols_idempotent {ε : Type} [DecidableEq ε] (lookup : String → Option ε)
    (geneList : List ε) (text : String) (h : geneList.Nodup) :
    addSymbolsWith lookup (addSymbolsWith lookup geneList text) text =
        addSymbolsWith lookup geneList text ∧
      (addSymbolsWith lookup (addSymbolsWith lookup geneList text) text).length =
        (addSymbolsWith lookup geneList text).length ∧
      (addSymbolsWith lookup geneList text).Nodup ∧
      (addSymbolsWith lookup (addSymbolsWith lookup geneList text) text).Nodup := by
  have hfix := addSymbolsWith_twice lookup geneList text
  have hnd := addSymbolsWith_nodup lookup geneList text h
  refine ⟨hfix, by rw [hfix], hnd, ?_⟩
  rw [hfix]
  exact hnd

/-- C7 (witness). With the index `{TP53: count 3}` and an empty gene list, adding
`"TP53;BRCA1"` once or twice gives the gene list holding the entry of `TP53` only. -/
theorem addSymbols_idempotent_witness :
    ([] : List GeneItem).Nodup ∧
      addSymbolsWith (lookupGene inheritedName [{ symbol := "TP53", count := 3 }]) []
          "TP53;BRCA1" = [GeneItem.entry { symbol := "TP53", count := 3 }] ∧
      addSymbolsWith (lookupGene inheritedName [{ symbol := "TP53", count := 3 }])
          (addSymbolsWith (lookupGene inheritedName [{ symbol := "TP53", count := 3 }]) []
            "TP53;BRCA1") "TP53;BRCA1" =
        addSymbolsWith (lookupGene inheritedName [{ symbol := "TP53", count := 3 }]) []
          "TP53;BRCA1" :=
  ⟨List.nodup_nil, by decide!,
    (addSymbols_idempotent (lookupGene inheritedName [{ symbol := "TP53", count := 3 }]) []
      "TP53;BRCA1" List.nodup_nil).1⟩

/-- The controller's `addSymbols` is idempotent on every state with a gene index and a
duplicate-free gene list. -/
theorem addSymbols_ctrl_idempotent (inherited : String → Bool) (text : String) (c : Ctrl)
    (m : List GeneEntry) (hm : c.uniqGeneMap = some m) (h : c.geneList.Nodup) :
    ∃ c1, addSymbols inherited text c = some c1 ∧ addSymbols inherited text c1 = some c1 ∧
      c1.geneList.Nodup := by
  refine ⟨{ c with geneList := addSymbolsWith (lookupGene inherited m) c.geneList text }, ?_, ?_,
    addSymbolsWith_nodup _ _ _ h⟩
  · simp [addSymbols, hm]
  · simp only [addSymbols, hm]
    rw [addSymbolsWith_twice]

/-! ## C8: the highlight rank -/

theorem indexOf_eq (g : List JSVal) (s : String) :
    indexOf g s = if JSVal.str s ∈ g then (List.indexOf (JSVal.str s) g : Int) else -1 := by
  unfold indexOf List.indexOf?
  rw [List.findIdx?_eq_guard_findIdx_lt]
  have hidx : List.findIdx (fun x => x == JSVal.str s) g = List.indexOf (JSVal.str s) g := rfl
  rw [hidx]
  by_cases hmem : JSVal.str s ∈ g
  · have hlt : List.indexOf (JSVal.str s) g < g.length := List.indexOf_lt_length.mpr hmem
    simp [Option.guard, hlt, hmem]
  · have hlt : ¬ List.indexOf (JSVal.str s) g < g.length :=
      fun h => hmem (List.indexOf_lt_length.mp h)
    simp [Option.guard, hlt, hmem]

/-- C8. For every record with symbols `symbols` and every searched sequence `genesSearch`
(the `symbol` of each searched item, in order), `geneCheck` returns `-1` exactly when no
element of `symbols` occurs in `genesSearch`; otherwise, with `s` the first element of
`symbols` that occurs in `genesSearch`, it returns the index `j` of the first occurrence of
`s` in `genesSearch`, so `0 <= j < genesSearch.length` and `genesSearch[j] = s` is one of
`symbols`. -/
theorem geneCheck_spec (genesSearch : List JSVal) (symbols : List String) :
    (geneCheck genesSearch symbols = -1 ↔ ∀ s ∈ symbols, JSVal.str s ∉ genesSearch) ∧
      match symbols.find? (fun s => decide (JSVal.str s ∈ genesSearch)) with
      | none => geneCheck genesSearch symbols = -1
      | some s =>
        geneCheck genesSearch symbols = (List.indexOf (JSVal.str s) genesSearch : Int) ∧
          0 ≤ geneCheck genesSearch symbols ∧
          geneCheck genesSearch symbols < (genesSearch.length : Int) ∧
          genesSearch.get? (geneCheck genesSearch symbols).toNat = some (JSVal.str s) ∧
          s ∈ symbols := by
  induction symbols with
  | nil => simp [geneCheck]
  | cons x rest ih =>
    unfold geneCheck
    simp only []
    rw [indexOf_eq, List.find?_cons]
    by_cases hx : JSVal.str x ∈ genesSearch
    · have hlt : List.indexOf (JSVal.str x) genesSearch < genesSearch.length :=
        List.indexOf_lt_length.mpr hx
      have hpos : ((List.indexOf (JSVal.str x) genesSearch : Int) > -1) := by omega
      simp only [hx, if_true, hpos, decide_True]
      refine ⟨⟨fun h => by omega, fun h => absurd hx (h x (List.mem_cons_self _ _))⟩, ?_⟩
      refine ⟨trivial, by omega, by omega, ?_, List.mem_cons_self _ _⟩
      simpa using List.indexOf_get? hx
    · have hneg : ¬ ((-1 : Int) > -1) := by omega
      simp only [hx, if_false, hneg, decide_False]
      obtain ⟨ih1, ih2⟩ := ih
      refine ⟨?_, ?_⟩
      · rw [ih1]
        constructor
        · intro h s hs
          rcases List.mem_cons.mp hs with rfl | hs
          · exact hx
          · exact h s hs
        · intro h s hs
          exact h s (List.mem_cons_of_mem _ hs)
      · cases hfind : rest.find? (fun s => decide (JSVal.str s ∈ genesSearch)) with
        | none =>
          rw [hfind] at ih2
          exact ih2
        | some s =>
          rw [hfind] at ih2
          exact ⟨ih2.1, ih2.2.1, ih2.2.2.1, ih2.2.2.2.1, List.mem_cons_of_mem _ ih2.2.2.2.2⟩

/-! ## C10: the up and down counts -/

theorem JSNum.abs_gt_and_pos (l f : JSNum) (hf : JSNum.le (JSNum.fin 0) f = true) :
    (JSNum.gt (JSNum.abs l) f && JSNum.gt l (JSNum.fin 0)) = JSNum.gt l f := by
  cases f with
  | fin q =>
    have hq : (0 : ℚ) ≤ q := by simpa [JSNum.le] using hf
    cases l with
    | fin p =>
      simp only [JSNum.gt, JSNum.lt, JSNum.abs]
      rw [Bool.eq_iff_iff]
      simp only [Bool.and_eq_true, decide_eq_true_eq]
      constructor
      · rintro ⟨h1, h2⟩
        rwa [abs_of_pos h2] at h1
      · intro h
        have hp : 0 < p := lt_of_le_of_lt hq h
        exact ⟨by rwa [abs_of_pos hp], hp⟩
    | _ => simp [JSNum.gt, JSNum.lt, JSNum.abs]
  | pinf => cases l <;> simp [JSNum.gt, JSNum.lt, JSNum.abs]
  | _ => simp [JSNum.le] at hf

theorem JSNum.abs_gt_and_not_pos (l f : JSNum) (hf : JSNum.le (JSNum.fin 0) f = true) :
    (JSNum.gt (JSNum.abs l) f && !(JSNum.gt l (JSNum.fin 0))) = JSNum.lt l (JSNum.neg f) := by
  cases f with
  | fin q =>
    have hq : (0 : ℚ) ≤ q := by simpa [JSNum.le] using hf
    cases l with
    | fin p =>
      simp only [JSNum.gt, JSNum.lt, JSNum.abs, JSNum.neg]
      rw [Bool.eq_iff_iff]
      simp only [Bool.and_eq_true, decide_eq_true_eq, Bool.not_eq_true', decide_eq_false_iff_not,
        not_lt]
      constructor
      · rintro ⟨h1, h2⟩
        rw [abs_of_nonpos h2] at h1
        linarith
      · intro h
        have hp : p ≤ 0 := by linarith
        exact ⟨by rw [abs_of_nonpos hp]; linarith, hp⟩
    | _ => simp [JSNum.gt, JSNum.lt, JSNum.abs, JSNum.neg]
  | pinf => cases l <;> simp [JSNum.gt, JSNum.lt, JSNum.abs, JSNum.neg]
  | _ => simp [JSNum.le] at hf

theorem length_filter_add {α : Type} (p q : α → Bool) (l : List α) :
    ((l.filter p).filter q).length + (l.filter (fun a => p a && !(q a))).length =
      (l.filter p).length := by
  induction l with
  | nil => rfl
  | cons a rest ih =>
    cases hp : p a <;> cases hq : q a <;>
      simp [List.filter_cons, hp, hq, -List.filter_filter] <;> omega

theorem length_filter_split {α : Type} (p q : α → Bool) (l : List α) :
    (l.filter p).length - ((l.filter p).filter q).length =
      (l.filter (fun a => p a && !(q a))).length := by
  have := length_filter_add p q l
  omega

/-- C10. For every loaded dataset `data`, every `logpcut` and every `fccut >= 0`, `setup`
completes and sets `upDown[0]` to the number of records with `padj <= 10^logpcut` and
`log2FoldChange > fccut`, `upDown[1]` to the number with `padj <= 10^logpcut` and
`log2FoldChange < -fccut`; the two add up to the number of records passing `cutoffCheck`, and
a record whose `padj` is NaN is counted in neither. -/
theorem setup_upDown (parse : String → JSNum) (pow10 : JSNum → JSNum) (logpcut fccut : JSNum)
    (c : Ctrl) (data : List Obj) (hd : c.data = some data)
    (hf : JSNum.le (JSNum.fin 0) fccut = true) :
    ∃ c', setup parse pow10 logpcut fccut c = some c' ∧
      c'.upDown.1 = (data.filter (fun d => JSNum.le (padjOf parse d) (pow10 logpcut) &&
        JSNum.gt (log2FoldChangeOf parse d) fccut)).length ∧
      c'.upDown.2 = (data.filter (fun d => JSNum.le (padjOf parse d) (pow10 logpcut) &&
        JSNum.lt (log2FoldChangeOf parse d) (JSNum.neg fccut))).length ∧
      c'.upDown.1 + c'.upDown.2 =
        (data.filter (cutoffCheck parse (pow10 logpcut) fccut)).length ∧
      ∀ d, padjOf parse d = JSNum.nan →
        cutoffCheck parse (pow10 logpcut) fccut d = false ∧
        (JSNum.le (padjOf parse d) (pow10 logpcut) &&
          JSNum.gt (log2FoldChangeOf parse d) fccut) = false ∧
        (JSNum.le (padjOf parse d) (pow10 logpcut) &&
          JSNum.lt (log2FoldChangeOf parse d) (JSNum.neg fccut)) = false := by
  have hup : (fun d => cutoffCheck parse (pow10 logpcut) fccut d &&
      JSNum.gt (log2FoldChangeOf parse d) (JSNum.fin 0)) =
      fun d => JSNum.le (padjOf parse d) (pow10 logpcut) &&
        JSNum.gt (log2FoldChangeOf parse d) fccut := by
    funext d
    unfold cutoffCheck padjOf
    rw [Bool.and_assoc, JSNum.abs_gt_and_pos _ _ hf]
  have hdown : (fun d => cutoffCheck parse (pow10 logpcut) fccut d &&
      !(JSNum.gt (log2FoldChangeOf parse d) (JSNum.fin 0))) =
      fun d => JSNum.le (padjOf parse d) (pow10 logpcut) &&
        JSNum.lt (log2FoldChangeOf parse d) (JSNum.neg fccut) := by
    funext d
    unfold cutoffCheck padjOf
    rw [Bool.and_assoc, JSNum.abs_gt_and_not_pos _ _ hf]
  have h1 : ((data.filter (cutoffCheck parse (pow10 logpcut) fccut)).filter
      (fun d => JSNum.gt (log2FoldChangeOf parse d) (JSNum.fin 0))).length =
      (data.filter (fun d => JSNum.le (padjOf parse d) (pow10 logpcut) &&
        JSNum.gt (log2FoldChangeOf parse d) fccut)).length := by
    rw [List.filter_filter, ← hup]
    congr 2
    funext d
    rw [Bool.and_comm]
  have h2 := length_filter_split (cutoffCheck parse (pow10 logpcut) fccut)
    (fun d => JSNum.gt (log2FoldChangeOf parse d) (JSNum.fin 0)) data
  rw [hdown] at h2
  have hle : ((data.filter (cutoffCheck parse (pow10 logpcut) fccut)).filter
      (fun d => JSNum.gt (log2FoldChangeOf parse d) (JSNum.fin 0))).length ≤
      (data.filter (cutoffCheck parse (pow10 logpcut) fccut)).length :=
    List.length_filter_le _ _
  refine ⟨{ c with upDown :=
    (((data.filter (cutoffCheck parse (pow10 logpcut) fccut)).filter
        (fun d => JSNum.gt (log2FoldChangeOf parse d) (JSNum.fin 0))).length,
      (data.filter (cutoffCheck parse (pow10 logpcut) fccut)).length -
        ((data.filter (cutoffCheck parse (pow10 logpcut) fccut)).filter
          (fun d => JSNum.gt (log2FoldChangeOf parse d) (JSNum.fin 0))).length) },
    by simp only [setup, hd], h1, h2, ?_, ?_⟩
  · show ((data.filter (cutoffCheck parse (pow10 logpcut) fccut)).filter
        (fun d => JSNum.gt (log2FoldChangeOf parse d) (JSNum.fin 0))).length +
      ((data.filter (cutoffCheck parse (pow10 logpcut) fccut)).length -
        ((data.filter (cutoffCheck parse (pow10 logpcut) fccut)).filter
          (fun d => JSNum.gt (log2FoldChangeOf parse d) (JSNum.fin 0))).length) =
      (data.filter (cutoffCheck parse (pow10 logpcut) fccut)).length
    omega
  · intro d hnan
    simp [cutoffCheck, padjOf] at hnan ⊢
    simp [hnan, JSNum.le]

/-- C10 (witness). With one significant up-regulated record and one record without `padj`,
`logpcut = -1` and `fccut = 0`, `setup` sets `upDown` to `[1, 0]`. -/
theorem setup_upDown_witness :
    exampleLoadedCtrl.data = some [recordUp, recordNoPadj] ∧
      JSNum.le (JSNum.fin 0) (JSNum.fin 0) = true ∧
      (setup exampleParse examplePow10 (JSNum.fin (-1)) (JSNum.fin 0) exampleLoadedCtrl).map
        Ctrl.upDown = some (1, 0) ∧
      ∃ c', setup exampleParse examplePow10 (JSNum.fin (-1)) (JSNum.fin 0) exampleLoadedCtrl =
          some c' ∧
        c'.upDown.1 + c'.upDown.2 =
          ([recordUp, recordNoPadj].filter
            (cutoffCheck exampleParse (examplePow10 (JSNum.fin (-1))) (JSNum.fin 0))).length := by
  obtain ⟨c', h1, _, _, h4, _⟩ :=
    setup_upDown exampleParse examplePow10 (JSNum.fin (-1)) (JSNum.fin 0) exampleLoadedCtrl
      [recordUp, recordNoPadj] rfl (by decide!)
  exact ⟨rfl, by decide!, by decide!, c', h1, h4⟩

/-! ## C2: the brush and the published rows -/

theorem updateList_brush_mem (parse : String → JSNum) (c : Ctrl) (cf : Crossfilter)
    (hcf : c.cf = some cf) (extent : (JSNum × JSNum) × (JSNum × JSNum)) :
    ∃ c2 grid, updateList parse (some extent) c = some c2 ∧ c2.gridData = some grid ∧
      (∃ cf2, c2.cf = some cf2 ∧ cf2.records = cf.records) ∧
      ∀ r, r ∈ grid ↔ r ∈ cf.records ∧
        inRange (extent.1.1, extent.2.1) (baseMeanOf parse r) = true ∧
        inRange (extent.1.2, extent.2.2) (log2FoldChangeOf parse r) = true := by
  refine ⟨{ c with
      cf := some ((cf.filterBaseMean (extent.1.1, extent.2.1)).filterLog2FoldChange
        (extent.1.2, extent.2.2)),
      gridData := some (((cf.filterBaseMean (extent.1.1, extent.2.1)).filterLog2FoldChange
        (extent.1.2, extent.2.2)).topByLog2FoldChange parse) }, _,
    by simp only [updateList, hcf], rfl, ⟨_, rfl, rfl⟩, ?_⟩
  intro r
  rw [mem_topByLog2FoldChange]
  simp [Crossfilter.passes, Crossfilter.filterBaseMean, Crossfilter.filterLog2FoldChange]

theorem inRange_fin (lo hi : ℚ) (v : JSNum) (hv : v ≠ JSNum.nan) :
    inRange (JSNum.fin lo, JSNum.fin hi) v = true ↔
      JSNum.le (JSNum.fin lo) v = true ∧ JSNum.lt v (JSNum.fin hi) = true := by
  unfold inRange
  rw [JSNum.not_lt_iff_le v (JSNum.fin lo) hv (by simp)]
  simp

/-- C2 (counterexample). After loading the single row `rowOnEdge`, whose base mean is `10` and
fold change `0`, the record lies in the rectangle `[[0, -2], [10, 2]]` with both ends
included, but `updateList` with that brush publishes no row: the right end is excluded. -/
theorem updateList_excludes_upper_end :
    (processData exampleParse inheritedName "res" [rowOnEdge] (initialCtrl "")).1 =
        Outcome.loaded ∧
      (processData exampleParse inheritedName "res" [rowOnEdge] (initialCtrl "")).2.cf =
        some (loadedCrossfilter [normalizedWith exampleParse rowOnEdge "EGFR"]) ∧
      JSNum.le (JSNum.fin 0)
        (baseMeanOf exampleParse (normalizedWith exampleParse rowOnEdge "EGFR")) = true ∧
      JSNum.le (baseMeanOf exampleParse (normalizedWith exampleParse rowOnEdge "EGFR"))
        (JSNum.fin 10) = true ∧
      JSNum.le (JSNum.fin (-2))
        (log2FoldChangeOf exampleParse (normalizedWith exampleParse rowOnEdge "EGFR")) = true ∧
      JSNum.le (log2FoldChangeOf exampleParse (normalizedWith exampleParse rowOnEdge "EGFR"))
        (JSNum.fin 2) = true ∧
      (updateList exampleParse (some brushScenario)
        (processData exampleParse inheritedName "res" [rowOnEdge] (initialCtrl "")).2).map
          Ctrl.gridData = some (some []) := by
  decide!

/-- C2 (amended). For every loaded dataset, that is every controller state whose filter engine
holds the records `data` kept by a load, whatever ranges its dimensions carry from earlier
brushes, and for every brush rectangle with corners `(x0, y0)` and `(x1, y1)`, `updateList`
completes, the filter engine still holds `data`, and the published row set
`gridOptions.data` is, as a set, exactly the set of loaded records `r` with
`x0 <= r.baseMean < x1` and `y0 <= r.log2FoldChange < y1`: the lower ends are included, the
upper ends are not. -/
theorem updateList_brush (parse : String → JSNum) (rows data : List Obj) (c : Ctrl)
    (cf : Crossfilter) (x0 y0 x1 y1 : ℚ) (hf : filterRows parse rows = some data)
    (hcf : c.cf = some cf) (hrec : cf.records = data) :
    ∃ c2 grid,
      updateList parse (some ((JSNum.fin x0, JSNum.fin y0), (JSNum.fin x1, JSNum.fin y1))) c =
        some c2 ∧
      c2.gridData = some grid ∧
      (∃ cf2, c2.cf = some cf2 ∧ cf2.records = data) ∧
      ∀ r, r ∈ grid ↔ r ∈ data ∧
        JSNum.le (JSNum.fin x0) (baseMeanOf parse r) = true ∧
        JSNum.lt (baseMeanOf parse r) (JSNum.fin x1) = true ∧
        JSNum.le (JSNum.fin y0) (log2FoldChangeOf parse r) = true ∧
        JSNum.lt (log2FoldChangeOf parse r) (JSNum.fin y1) = true := by
  obtain ⟨c2, grid, hu, hg, hcf2, hmem⟩ := updateList_brush_mem parse c cf hcf
    ((JSNum.fin x0, JSNum.fin y0), (JSNum.fin x1, JSNum.fin y1))
  refine ⟨c2, grid, hu, hg, ?_, ?_⟩
  · obtain ⟨cf2, h1, h2⟩ := hcf2
    exact ⟨cf2, h1, h2.trans hrec⟩
  · intro r
    rw [hmem r, hrec]
    constructor
    · rintro ⟨hr, hb, hl⟩
      have hrecord := filterRows_record parse rows data hf r hr
      rw [inRange_fin _ _ _ hrecord.2.1] at hb
      rw [inRange_fin _ _ _ hrecord.2.2] at hl
      exact ⟨hr, hb.1, hb.2, hl.1, hl.2⟩
    · rintro ⟨hr, hb1, hb2, hl1, hl2⟩
      have hrecord := filterRows_record parse rows data hf r hr
      exact ⟨hr, (inRange_fin _ _ _ hrecord.2.1).mpr ⟨hb1, hb2⟩,
        (inRange_fin _ _ _ hrecord.2.2).mpr ⟨hl1, hl2⟩⟩

/-- C2 (witness). On the state left by loading the scenario row and brushing over
`[[0, -2], [10, 2]]`, which excluded the record, a brush over `[[0, -2], [10, 3]]` publishes
the record again. -/
theorem updateList_brush_witness :
    filterRows exampleParse [rowScenario] =
        some [normalizedWith exampleParse rowScenario "TP53;BRCA1"] ∧
      exampleBrushedCtrl.cf =
        some { records := [normalizedWith exampleParse rowScenario "TP53;BRCA1"],
               baseMeanRange := (JSNum.fin 0, JSNum.fin 10),
               log2FoldChangeRange := (JSNum.fin (-2), JSNum.fin 2) } ∧
      exampleBrushedCtrl.gridData = some [] ∧
      ∃ c2 grid,
        updateList exampleParse
          (some ((JSNum.fin 0, JSNum.fin (-2)), (JSNum.fin 10, JSNum.fin 3)))
          exampleBrushedCtrl = some c2 ∧
        c2.gridData = some grid ∧
        normalizedWith exampleParse rowScenario "TP53;BRCA1" ∈ grid := by
  have hf : filterRows exampleParse [rowScenario] =
      some [normalizedWith exampleParse rowScenario "TP53;BRCA1"] := by decide!
  have hcf : exampleBrushedCtrl.cf =
      some { records := [normalizedWith exampleParse rowScenario "TP53;BRCA1"],
             baseMeanRange := (JSNum.fin 0, JSNum.fin 10),
             log2FoldChangeRange := (JSNum.fin (-2), JSNum.fin 2) } := by decide!
  obtain ⟨c2, grid, hu, hg, _, hmem⟩ :=
    updateList_brush exampleParse [rowScenario] _ exampleBrushedCtrl _ 0 (-2) 10 3 hf hcf rfl
  refine ⟨hf, hcf, by decide!, c2, grid, hu, hg, ?_⟩
  rw [hmem]
  decide!

/-! ## C9: the debounced actions -/

theorem advance_quiet {P : Type} (a : Action) (now : Nat) (s : Scheduler P)
    (hother : ∀ b, b ≠ a → s.due b = none) (hdue : ∀ d, s.due a = some d → now < d) :
    advance now s = s := by
  cases a with
  | redraw =>
    have hu : s.updateDue = none := hother Action.updatePoints (by decide)
    cases hd : s.drawDue with
    | none => simp [advance, fireDraw, fireUpdate, hu, hd]
    | some d =>
      have hlt : ¬ d ≤ now := Nat.not_le.mpr (hdue d hd)
      simp [advance, fireDraw, fireUpdate, hu, hd, hlt]
  | updatePoints =>
    have hd : s.drawDue = none := hother Action.redraw (by decide)
    cases hu : s.updateDue with
    | none => simp [advance, fireDraw, fireUpdate, hu, hd]
    | some d =>
      have hlt : ¬ d ≤ now := Nat.not_le.mpr (hdue d hu)
      simp [advance, fireDraw, fireUpdate, hu, hd, hlt]

theorem advance_due {P : Type} (a : Action) (now d : Nat) (s : Scheduler P)
    (hother : ∀ b, b ≠ a → s.due b = none) (hdue : s.due a = some d) (hnow : d ≤ now) :
    (advance now s).executed = s.executed ++ [(a, d, s.params)] ∧
      (advance now s).dirty = false ∧ (advance now s).drawDue = none ∧
      (advance now s).updateDue = none := by
  cases a with
  | redraw =>
    have hu : s.updateDue = none := hother Action.updatePoints (by decide)
    have hd : s.drawDue = some d := hdue
    simp [advance, fireDraw, fireUpdate, runDraw, hu, hd, hnow]
  | updatePoints =>
    have hd : s.drawDue = none := hother Action.redraw (by decide)
    have hu : s.updateDue = some d := hdue
    simp [advance, fireDraw, fireUpdate, runUpdate, hu, hd, hnow]

theorem trigger_quiet {P : Type} (a : Action) (now : Nat) (p : P) (s : Scheduler P)
    (hother : ∀ b, b ≠ a → s.due b = none) (hdue : ∀ d, s.due a = some d → now < d) :
    (trigger a now p s).dirty = true ∧ (trigger a now p s).params = p ∧
      (trigger a now p s).due a = some (now + quietInterval) ∧
      (∀ b, b ≠ a → (trigger a now p s).due b = none) ∧
      (trigger a now p s).executed = s.executed := by
  have hadv := advance_quiet a now s hother hdue
  cases a with
  | redraw =>
    refine ⟨rfl, rfl, rfl, ?_, ?_⟩
    · intro b hb
      cases b with
      | redraw => exact absurd rfl hb
      | updatePoints =>
        show (advance now s).updateDue = none
        rw [hadv]
        exact hother Action.updatePoints (by decide)
    · show (advance now s).executed = s.executed
      rw [hadv]
  | updatePoints =>
    refine ⟨rfl, rfl, rfl, ?_, ?_⟩
    · intro b hb
      cases b with
      | updatePoints => exact absurd rfl hb
      | redraw =>
        show (advance now s).drawDue = none
        rw [hadv]
        exact hother Action.redraw (by decide)
    · show (advance now s).executed = s.executed
      rw [hadv]

theorem burst_pending {P : Type} (a : Action) (t : Nat) (p : P) (calls : List (Nat × P))
    (s : Scheduler P)
    (hchain : List.Chain' (fun x y : Nat × P => x.1 ≤ y.1 ∧ y.1 < x.1 + quietInterval) calls)
    (hother : ∀ b, b ≠ a → s.due b = none)
    (hdue : ∀ d, s.due a = some d → ∀ c ∈ calls.head?, c.1 < d)
    (hlast : calls.getLast? = some (t, p)) :
    (burst a calls s).dirty = true ∧ (burst a calls s).params = p ∧
      (burst a calls s).due a = some (t + quietInterval) ∧
      (∀ b, b ≠ a → (burst a calls s).due b = none) ∧
      (burst a calls s).executed = s.executed := by
  induction calls generalizing s with
  | nil => simp at hlast
  | cons c rest ih =>
    have hstep := trigger_quiet a c.1 c.2 s hother
      (fun d hd => hdue d hd c (by simp))
    have hb : burst a (c :: rest) s = burst a rest (trigger a c.1 c.2 s) := rfl
    rw [hb]
    cases rest with
    | nil =>
      have hc : c = (t, p) := by simpa using hlast
      have hb0 : burst a [] (trigger a c.1 c.2 s) = trigger a c.1 c.2 s := rfl
      rw [hb0]
      rw [hc] at hstep
      rw [hc]
      exact hstep
    | cons y l =>
      rw [List.chain'_cons] at hchain
      have hlast' : (y :: l).getLast? = some (t, p) := by
        rw [List.getLast?_cons_cons] at hlast
        exact hlast
      have := ih (trigger a c.1 c.2 s) hchain.2 hstep.2.2.2.1
        (by
          intro d hd c' hc'
          rw [hstep.2.2.1] at hd
          have hdeq : c.1 + quietInterval = d := by simpa using hd
          have hcy : c' = y := by simpa using hc'.symm
          rw [hcy, ← hdeq]
          exact hchain.1.2)
        hlast'
      rw [hstep.2.2.2.2] at this
      exact this

/-- C9. For every non-empty sequence of calls of `update()` (respectively `draw()`), each
following the previous one by less than the quiet interval of 100 ms, on a scheduler with
nothing pending: after each call and until one quiet interval has passed since it, nothing
has executed and the dirty flag is set; from 100 ms after the last call on, the debounced
action `chart.updatePoints` (respectively the full redraw) has executed exactly once, at
100 ms after the last call, with the chart parameters set by the last call's `setup()`, the
dirty flag is cleared and nothing is pending. -/
theorem debounce_burst {P : Type} (a : Action) (s0 : Scheduler P) (calls : List (Nat × P))
    (t : Nat) (p : P) (hidle : s0.drawDue = none ∧ s0.updateDue = none)
    (hchain : List.Chain' (fun x y : Nat × P => x.1 ≤ y.1 ∧ y.1 < x.1 + quietInterval) calls)
    (hlast : calls.getLast? = some (t, p)) :
    (∀ k tk pk, (calls.take k).getLast? = some (tk, pk) → ∀ now, now < tk + quietInterval →
      (advance now (burst a (calls.take k) s0)).dirty = true ∧
      (advance now (burst a (calls.take k) s0)).executed = s0.executed) ∧
    (∀ now, t + quietInterval ≤ now →
      (advance now (burst a calls s0)).executed =
        s0.executed ++ [(a, t + quietInterval, p)] ∧
      (advance now (burst a calls s0)).dirty = false ∧
      (advance now (burst a calls s0)).drawDue = none ∧
      (advance now (burst a calls s0)).updateDue = none) := by
  have hother : ∀ b, b ≠ a → s0.due b = none := by
    intro b _
    cases b
    · exact hidle.1
    · exact hidle.2
  have hnone : ∀ (l : List (Nat × P)) d, s0.due a = some d → ∀ c ∈ l.head?, c.1 < d := by
    intro l d hd
    cases a
    · rw [show s0.due Action.redraw = s0.drawDue from rfl, hidle.1] at hd
      simp at hd
    · rw [show s0.due Action.updatePoints = s0.updateDue from rfl, hidle.2] at hd
      simp at hd
  constructor
  · intro k tk pk hk now hnow
    obtain ⟨h1, _, h3, h4, h5⟩ :=
      burst_pending a tk pk (calls.take k) s0 (hchain.take k) hother (hnone _) hk
    have hq := advance_quiet a now (burst a (calls.take k) s0) h4
      (by
        intro d hd
        rw [h3] at hd
        have : tk + quietInterval = d := by simpa using hd
        omega)
    rw [hq]
    exact ⟨h1, h5⟩
  · intro now hnow
    obtain ⟨_, h2, h3, h4, h5⟩ := burst_pending a t p calls s0 hchain hother (hnone _) hlast
    have hd := advance_due a now (t + quietInterval) (burst a calls s0) h4 h3 hnow
    rw [h2, h5] at hd
    exact hd

/-- C9 (witness). Three calls of `update()` at 0, 50 and 149 ms: at 248 ms nothing has
executed and the flag is set; at 249 ms `chart.updatePoints` has executed once, with the
parameters of the third call. -/
theorem debounce_burst_witness :
    (idleScheduler.drawDue = none ∧ idleScheduler.updateDue = none) ∧
      List.Chain' (fun x y : Nat × String => x.1 ≤ y.1 ∧ y.1 < x.1 + quietInterval)
        [(0, "a"), (50, "b"), (149, "c")] ∧
      (advance 248 (burst Action.updatePoints [(0, "a"), (50, "b"), (149, "c")]
        idleScheduler)).dirty = true ∧
      (advance 249 (burst Action.updatePoints [(0, "a"), (50, "b"), (149, "c")]
        idleScheduler)).executed = [(Action.updatePoints, 249, "c")] := by
  have hidle : idleScheduler.drawDue = none ∧ idleScheduler.updateDue = none := ⟨rfl, rfl⟩
  have hchain : List.Chain' (fun x y : Nat × String => x.1 ≤ y.1 ∧ y.1 < x.1 + quietInterval)
      [(0, "a"), (50, "b"), (149, "c")] := by
    simp [List.chain'_cons, quietInterval]
  have h := debounce_burst Action.updatePoints idleScheduler [(0, "a"), (50, "b"), (149, "c")]
    149 "c" hidle hchain rfl
  exact ⟨hidle, hchain, (h.1 3 149 "c" rfl 248 (by decide)).1, (h.2 249 (by decide)).1⟩

end Deiva
